import Mathlib

/-!
Verification of the selection driver state machine (`src/select/machine.rs`)
of the crossbeam-channel repository.

The Rust `Machine` is embedded shallowly: all machine fields become a Lean
structure, `Instant` becomes a natural-number timestamp, and the external
collaborators (channel endpoints, the per-thread handle, the random source
and the clock) become explicit oracle inputs.  Calls the driver makes into
its collaborators are recorded as an explicit effect trace.  Panics
(`assert!` / `panic!` on a dead driver) are modelled by returning `none`.
-/

/-- Modelled from the spec: the case-identifier algebra (§3, §4.4) lives in
`select/mod.rs`, which is not under `src/`.  Identifiers are
equality-comparable tokens: the reserved sentinels `none`, `abort`,
`disconnected`, `would_block`, `timed_out`, plus real send/recv case
identifiers carrying an is-send / is-recv classification bit (sentinels
answer false to both). -/
inductive CaseId where
  | none
  | abort
  | disconnected
  | would_block
  | timed_out
  | sendCase (n : Nat)
  | recvCase (n : Nat)
deriving DecidableEq

/-- Modelled from the spec: real send-case identifiers report send-ness. -/
def CaseId.is_send : CaseId → Bool
  | CaseId.sendCase _ => true
  | _ => false

/-- Modelled from the spec: real recv-case identifiers report recv-ness. -/
def CaseId.is_recv : CaseId → Bool
  | CaseId.recvCase _ => true
  | _ => false

/-- The `State` enum of `machine.rs`. -/
inductive State where
  | Count
  | Try (disconnected_count : Nat)
  | Promise (disconnected_count : Nat)
  | Revoke (case_id : CaseId)
  | Fulfill (case_id : CaseId)
  | Disconnected
  | WouldBlock
  | TimedOut
  | Dead
deriving DecidableEq

/-- Calls the driver makes into its collaborators (handle and channel
endpoints), recorded as a trace. -/
inductive Effect where
  | reset
  | try_select (c : CaseId)
  | wait_until (d : Option Nat)
  | promise_send (c : CaseId)
  | promise_recv (c : CaseId)
  | revoke_send (c : CaseId)
  | revoke_recv (c : CaseId)
  | fulfill_send (c : CaseId)
  | fulfill_recv (c : CaseId)
deriving DecidableEq

/-- Oracle for the external inputs one driver call can consume:
`utils::small_random` (its argument is the machine's `len`),
`handle::current_selected()`, and `Instant::now()`. -/
structure Env where
  small_random : Nat → Nat
  selected : CaseId
  now : Nat

/-- The `Machine` struct of `machine.rs`; `Instant` timestamps are `Nat`. -/
structure Machine where
  state : State
  index : Nat
  start_index : Nat
  first_id : CaseId
  deadline : Option Nat
  len : Nat
  send_case_count : Nat
  recv_case_count : Nat
  has_disconnected_case : Bool
  has_would_block_case : Bool
  has_timed_out_case : Bool
deriving DecidableEq

/-- `Machine::with_deadline`. -/
def Machine.with_deadline (deadline : Option Nat) : Machine :=
  { state := State.Count
    index := 0
    start_index := 0
    first_id := CaseId.none
    deadline := deadline
    len := 0
    send_case_count := 0
    recv_case_count := 0
    has_disconnected_case := false
    has_would_block_case := false
    has_timed_out_case := false }

/-- `Machine::new`. -/
def Machine.new : Machine := Machine.with_deadline Option.none

/-- The visit-gate test of `Machine::step` (line 238):
`self.start_index <= i && i < self.start_index + self.len`. -/
def visitGate (start_index len i : Nat) : Bool :=
  decide (start_index ≤ i ∧ i < start_index + len)

/-- The body of the counting branch of `Machine::step` (lines 207–222). -/
def Machine.countCase (m : Machine) (case_id : CaseId) : Machine :=
  { m with
    first_id := if m.len = 0 then case_id else m.first_id
    len := m.len + 1
    index := m.index + 1
    send_case_count := m.send_case_count + (if case_id.is_send then 1 else 0)
    recv_case_count := m.recv_case_count + (if case_id.is_recv then 1 else 0)
    has_disconnected_case := m.has_disconnected_case || (case_id = CaseId.disconnected)
    has_would_block_case := m.has_would_block_case || (case_id = CaseId.would_block)
    has_timed_out_case := m.has_timed_out_case || (case_id = CaseId.timed_out) }

/-- `Machine::transition` (lines 241–291).  Returns the updated machine and
the handle calls it makes; `none` models the panic on a dead driver. -/
def Machine.transition (m : Machine) (env : Env) : Option (Machine × List Effect) :=
  match m.state with
  | State.Try dc =>
    if m.has_disconnected_case ∧ m.send_case_count + m.recv_case_count = dc then
      Option.some ({ m with state := State.Disconnected }, [])
    else if m.has_would_block_case then
      Option.some ({ m with state := State.WouldBlock }, [])
    else
      Option.some ({ m with state := State.Promise 0 }, [Effect.reset])
  | State.Promise dc =>
    let effs :=
      if m.has_disconnected_case ∧ m.send_case_count + m.recv_case_count = dc then
        [Effect.try_select CaseId.abort]
      else
        [Effect.wait_until m.deadline]
    Option.some ({ m with state := State.Revoke env.selected }, effs)
  | State.Revoke case_id =>
    Option.some ({ m with state := State.Fulfill case_id }, [])
  | State.Fulfill _ =>
    match m.deadline with
    | Option.some e =>
      if e ≤ env.now then
        Option.some ({ m with state := State.TimedOut }, [])
      else
        Option.some ({ m with state := State.Try 0 }, [])
    | Option.none => Option.some ({ m with state := State.Try 0 }, [])
  | State.Disconnected => Option.some (m, [])
  | State.WouldBlock => Option.some (m, [])
  | State.TimedOut => Option.some (m, [])
  | State.Count => Option.some (m, [])
  | State.Dead => Option.none

/-- The non-Count tail of `Machine::step` (lines 231–239): fire `transition`
when `index ≥ 2·len`, then consume one virtual slot through the visit gate. -/
def Machine.stepSlots (m : Machine) (env : Env) : Option (Bool × Machine × List Effect) :=
  if 2 * m.len ≤ m.index then
    match m.transition env with
    | Option.none => Option.none
    | Option.some (m2, effs) =>
      Option.some (visitGate m2.start_index m2.len 0, { m2 with index := 1 }, effs)
  else
    Option.some (visitGate m.start_index m.len m.index, { m with index := m.index + 1 }, [])

/-- `Machine::step` (lines 199–239).  `none` models the `assert!` panic on a
dead driver. -/
def Machine.step (m : Machine) (env : Env) (case_id : CaseId) :
    Option (Bool × Machine × List Effect) :=
  if m.state = State.Dead then Option.none
  else if m.state = State.Count then
    if m.first_id ≠ case_id then
      Option.some (false, m.countCase case_id, [])
    else
      Machine.stepSlots
        { m with state := State.Try 0, index := 0, start_index := env.small_random m.len }
        env
  else
    Machine.stepSlots m env

/-- The `TrySendError`-shaped result of `Sender::try_send`: success, `Full`,
or `Disconnected` (the message always travels back on failure). -/
inductive TrySendRes where
  | ok
  | full
  | disconnected
deriving DecidableEq

/-- The `TryRecvError`-shaped result of `Receiver::try_recv`. -/
inductive TryRecvRes (T : Type) where
  | ok (v : T)
  | empty
  | disconnected
deriving DecidableEq

/-- Responses of a `Sender` channel endpoint for one driver call: its case
identifier and the results the channel collaborator would return. -/
structure Sender where
  case_id : CaseId
  try_send : TrySendRes
  is_disconnected : Bool
  can_send : Bool
  fulfill_send_ok : Bool

/-- `Machine::send` (lines 78–125).  The result is `Except.ok ()` when the
operation commits, `Except.error msg` otherwise; `none` models the panic on
a dead driver. -/
def Machine.send {T : Type} (m : Machine) (env : Env) (tx : Sender) (msg : T) :
    Option (Except T Unit × Machine × List Effect) :=
  match m.step env tx.case_id with
  | Option.none => Option.none
  | Option.some (false, m1, effs) => Option.some (Except.error msg, m1, effs)
  | Option.some (true, m1, effs) =>
    match m1.state with
    | State.Try dc =>
      match tx.try_send with
      | TrySendRes.ok => Option.some (Except.ok (), m1, effs)
      | TrySendRes.full => Option.some (Except.error msg, m1, effs)
      | TrySendRes.disconnected =>
        Option.some (Except.error msg, { m1 with state := State.Try (dc + 1) }, effs)
    | State.Promise dc =>
      let effs := effs ++ [Effect.promise_send tx.case_id]
      if tx.is_disconnected then
        Option.some (Except.error msg, { m1 with state := State.Promise (dc + 1) }, effs)
      else if tx.can_send then
        Option.some (Except.error msg, m1, effs ++ [Effect.try_select CaseId.abort])
      else
        Option.some (Except.error msg, m1, effs)
    | State.Revoke case_id =>
      if tx.case_id ≠ case_id then
        Option.some (Except.error msg, m1, effs ++ [Effect.revoke_send tx.case_id])
      else
        Option.some (Except.error msg, m1, effs)
    | State.Fulfill case_id =>
      if tx.case_id = case_id then
        if tx.fulfill_send_ok then
          Option.some (Except.ok (), m1, effs ++ [Effect.fulfill_send tx.case_id])
        else
          Option.some (Except.error msg, m1, effs ++ [Effect.fulfill_send tx.case_id])
      else
        Option.some (Except.error msg, m1, effs)
    | State.Count => Option.some (Except.error msg, m1, effs)
    | State.Disconnected => Option.some (Except.error msg, m1, effs)
    | State.WouldBlock => Option.some (Except.error msg, m1, effs)
    | State.TimedOut => Option.some (Except.error msg, m1, effs)
    | State.Dead => Option.none

/-- Responses of a `Receiver` channel endpoint for one driver call. -/
structure Receiver (T : Type) where
  case_id : CaseId
  try_recv : TryRecvRes T
  is_disconnected : Bool
  can_recv : Bool
  fulfill_recv : Option T

/-- `Machine::recv` (lines 127–173). -/
def Machine.recv {T : Type} (m : Machine) (env : Env) (rx : Receiver T) :
    Option (Except Unit T × Machine × List Effect) :=
  match m.step env rx.case_id with
  | Option.none => Option.none
  | Option.some (false, m1, effs) => Option.some (Except.error (), m1, effs)
  | Option.some (true, m1, effs) =>
    match m1.state with
    | State.Try dc =>
      match rx.try_recv with
      | TryRecvRes.ok v => Option.some (Except.ok v, m1, effs)
      | TryRecvRes.empty => Option.some (Except.error (), m1, effs)
      | TryRecvRes.disconnected =>
        Option.some (Except.error (), { m1 with state := State.Try (dc + 1) }, effs)
    | State.Promise dc =>
      let effs := effs ++ [Effect.promise_recv rx.case_id]
      if rx.is_disconnected ∧ ¬ rx.can_recv then
        Option.some (Except.error (), { m1 with state := State.Promise (dc + 1) }, effs)
      else if rx.can_recv then
        Option.some (Except.error (), m1, effs ++ [Effect.try_select CaseId.abort])
      else
        Option.some (Except.error (), m1, effs)
    | State.Revoke case_id =>
      if rx.case_id ≠ case_id then
        Option.some (Except.error (), m1, effs ++ [Effect.revoke_recv rx.case_id])
      else
        Option.some (Except.error (), m1, effs)
    | State.Fulfill case_id =>
      if rx.case_id = case_id then
        match rx.fulfill_recv with
        | Option.some v => Option.some (Except.ok v, m1, effs ++ [Effect.fulfill_recv rx.case_id])
        | Option.none => Option.some (Except.error (), m1, effs ++ [Effect.fulfill_recv rx.case_id])
      else
        Option.some (Except.error (), m1, effs)
    | State.Count => Option.some (Except.error (), m1, effs)
    | State.Disconnected => Option.some (Except.error (), m1, effs)
    | State.WouldBlock => Option.some (Except.error (), m1, effs)
    | State.TimedOut => Option.some (Except.error (), m1, effs)
    | State.Dead => Option.none

/-- `Machine::disconnected` (lines 175–181). -/
def Machine.disconnected (m : Machine) (env : Env) : Option (Bool × Machine × List Effect) :=
  match m.step env CaseId.disconnected with
  | Option.none => Option.none
  | Option.some (false, m1, effs) => Option.some (false, m1, effs)
  | Option.some (true, m1, effs) =>
    Option.some (decide (m1.state = State.Disconnected), m1, effs)

/-- `Machine::would_block` (lines 183–189). -/
def Machine.would_block (m : Machine) (env : Env) : Option (Bool × Machine × List Effect) :=
  match m.step env CaseId.would_block with
  | Option.none => Option.none
  | Option.some (false, m1, effs) => Option.some (false, m1, effs)
  | Option.some (true, m1, effs) =>
    Option.some (decide (m1.state = State.WouldBlock), m1, effs)

/-- `Machine::timed_out` (lines 191–197). -/
def Machine.timed_out (m : Machine) (env : Env) : Option (Bool × Machine × List Effect) :=
  match m.step env CaseId.timed_out with
  | Option.none => Option.none
  | Option.some (false, m1, effs) => Option.some (false, m1, effs)
  | Option.some (true, m1, effs) =>
    Option.some (decide (m1.state = State.TimedOut), m1, effs)

/-- Modelled from the spec: the selection wrapper around the machine lives
outside `src/` (`select/mod.rs`); per the spec, "On success, the operation
dispatcher returns committed and the driver becomes `Dead`".  `selectSend`
runs `Machine.send` and marks the driver dead on commit. -/
def selectSend {T : Type} (m : Machine) (env : Env) (tx : Sender) (msg : T) :
    Option (Except T Unit × Machine × List Effect) :=
  match m.send env tx msg with
  | Option.none => Option.none
  | Option.some (Except.ok u, m1, effs) =>
    Option.some (Except.ok u, { m1 with state := State.Dead }, effs)
  | Option.some (Except.error e, m1, effs) => Option.some (Except.error e, m1, effs)

/-- Modelled from the spec: commit wrapper for `recv` (see `selectSend`). -/
def selectRecv {T : Type} (m : Machine) (env : Env) (rx : Receiver T) :
    Option (Except Unit T × Machine × List Effect) :=
  match m.recv env rx with
  | Option.none => Option.none
  | Option.some (Except.ok v, m1, effs) =>
    Option.some (Except.ok v, { m1 with state := State.Dead }, effs)
  | Option.some (Except.error e, m1, effs) => Option.some (Except.error e, m1, effs)

/-- Modelled from the spec: "A true return transitions the driver to `Dead`"
for the synthetic `disconnected` case; the wrapper lives outside `src/`. -/
def selectDisconnected (m : Machine) (env : Env) : Option (Bool × Machine × List Effect) :=
  match m.disconnected env with
  | Option.none => Option.none
  | Option.some (b, m1, effs) =>
    if b then Option.some (true, { m1 with state := State.Dead }, effs)
    else Option.some (false, m1, effs)

/-- Modelled from the spec: Dead-on-true wrapper for `would_block`. -/
def selectWouldBlock (m : Machine) (env : Env) : Option (Bool × Machine × List Effect) :=
  match m.would_block env with
  | Option.none => Option.none
  | Option.some (b, m1, effs) =>
    if b then Option.some (true, { m1 with state := State.Dead }, effs)
    else Option.some (false, m1, effs)

/-- Modelled from the spec: Dead-on-true wrapper for `timed_out`. -/
def selectTimedOut (m : Machine) (env : Env) : Option (Bool × Machine × List Effect) :=
  match m.timed_out env with
  | Option.none => Option.none
  | Option.some (b, m1, effs) =>
    if b then Option.some (true, { m1 with state := State.Dead }, effs)
    else Option.some (false, m1, effs)

/-- Kind of one declared case in the caller's list. -/
inductive OpKind where
  | send
  | recv
  | disc
  | wblock
  | tout
deriving DecidableEq

/-- One declared case of the caller's selection: its identifier and kind. -/
structure Case where
  id : CaseId
  kind : OpKind
deriving DecidableEq

/-- All oracle inputs one caller-loop iteration may consume: the `Env`
inputs plus the channel endpoint's responses for that call. -/
structure CallOracle (T : Type) where
  env : Env
  try_send : TrySendRes
  is_disconnected : Bool
  can_send : Bool
  fulfill_send_ok : Bool
  try_recv : TryRecvRes T
  can_recv : Bool
  fulfill_recv : Option T
  msg : T

/-- Execute one caller-loop iteration: dispatch the declared case `k` to the
matching wrapped driver operation, feeding it the call's oracle.  Returns
whether the call committed, the new machine, and the effect trace. -/
def execCall {T : Type} (m : Machine) (k : Case) (o : CallOracle T) :
    Option (Bool × Machine × List Effect) :=
  match k.kind with
  | OpKind.send =>
    match selectSend m o.env
        { case_id := k.id, try_send := o.try_send, is_disconnected := o.is_disconnected,
          can_send := o.can_send, fulfill_send_ok := o.fulfill_send_ok } o.msg with
    | Option.none => Option.none
    | Option.some (Except.ok _, m1, effs) => Option.some (true, m1, effs)
    | Option.some (Except.error _, m1, effs) => Option.some (false, m1, effs)
  | OpKind.recv =>
    match selectRecv m o.env
        { case_id := k.id, try_recv := o.try_recv, is_disconnected := o.is_disconnected,
          can_recv := o.can_recv, fulfill_recv := o.fulfill_recv } with
    | Option.none => Option.none
    | Option.some (Except.ok _, m1, effs) => Option.some (true, m1, effs)
    | Option.some (Except.error _, m1, effs) => Option.some (false, m1, effs)
  | OpKind.disc => selectDisconnected m o.env
  | OpKind.wblock => selectWouldBlock m o.env
  | OpKind.tout => selectTimedOut m o.env

/-- The caller contract: enumerate the case list cyclically, re-entering
until the driver is dead.  `t` is the global call counter (position
`t % cs.length` is presented next; the oracle stream is indexed by `t`),
`fuel` bounds the run.  Stops at a dead driver (the caller exits its loop
when an operation commits) and on panic. -/
def runCalls {T : Type} (cs : List Case) (o : Nat → CallOracle T) :
    Machine → Nat → Nat → Machine × List Effect
  | m, _, 0 => (m, [])
  | m, t, fuel + 1 =>
    if m.state = State.Dead then (m, [])
    else
      match execCall m (cs.getD (t % cs.length) { id := CaseId.none, kind := OpKind.disc })
          (o t) with
      | Option.none => (m, [])
      | Option.some (_, m1, effs) =>
        let r := runCalls cs o m1 (t + 1) fuel
        (r.1, effs ++ r.2)

/-- A registration event on one case: an interest registration
(`promise_send`/`promise_recv`) or its settlement
(`revoke_send`/`revoke_recv`/`fulfill_send`/`fulfill_recv`). -/
inductive RegEvent where
  | promise
  | settle
deriving DecidableEq

/-- Project an effect onto the registration events of case `c`. -/
def regEvent (c : CaseId) : Effect → Option RegEvent
  | Effect.promise_send d => if d = c then Option.some RegEvent.promise else Option.none
  | Effect.promise_recv d => if d = c then Option.some RegEvent.promise else Option.none
  | Effect.revoke_send d => if d = c then Option.some RegEvent.settle else Option.none
  | Effect.revoke_recv d => if d = c then Option.some RegEvent.settle else Option.none
  | Effect.fulfill_send d => if d = c then Option.some RegEvent.settle else Option.none
  | Effect.fulfill_recv d => if d = c then Option.some RegEvent.settle else Option.none
  | _ => Option.none

/-- The registration events of case `c` in a trace, in order. -/
def regEvents (tr : List Effect) (c : CaseId) : List RegEvent :=
  tr.filterMap (regEvent c)

/-- Fold the pairing discipline over one case's registration events.
The boolean is "a registration is outstanding"; `none` means the discipline
was violated (a second promise while outstanding, or a settlement with
nothing outstanding). -/
def balFold : Bool → List RegEvent → Option Bool
  | b, [] => Option.some b
  | false, RegEvent.promise :: r => balFold true r
  | false, RegEvent.settle :: _ => Option.none
  | true, RegEvent.promise :: _ => Option.none
  | true, RegEvent.settle :: r => balFold false r

/-- A trace is balanced when, for every case, promises and settlements
alternate starting with a promise and nothing is left outstanding: every
`promise_*` is followed by exactly one `revoke_*` or `fulfill_*` for the
same case, and none is settled twice. -/
def RegBalanced (tr : List Effect) : Prop :=
  ∀ c : CaseId, balFold false (regEvents tr c) = Option.some false

/-- C3: for every `len ≥ 1` and `start_index ∈ [0, len)`, the visit gate of
`Machine::step` passes exactly for the virtual indices
`start_index ≤ i < start_index + len` within `[0, 2·len)`; exactly `len` of
the `2·len` slots pass, the passing slots are `start_index + j` for
`j < len` (the cyclic rotation order starting at `start_index`), and their
residues modulo `len` are pairwise distinct and cover `[0, len)`, so every
real case is visited exactly once per phase. -/
theorem c3_visit_gate_rotation (len start_index : Nat)
    (hlen : 1 ≤ len) (hstart : start_index < len) :
    (∀ i, i < 2 * len →
      (visitGate start_index len i = true ↔ start_index ≤ i ∧ i < start_index + len))
    ∧ ((Finset.range (2 * len)).filter
        (fun i => visitGate start_index len i = true)).card = len
    ∧ (∀ j, j < len → visitGate start_index len (start_index + j) = true)
    ∧ (∀ j1 j2, j1 < len → j2 < len →
        (start_index + j1) % len = (start_index + j2) % len → j1 = j2)
    ∧ (∀ r, r < len → ∃ j, j < len ∧ (start_index + j) % len = r) := by
  refine ⟨?_, ?_, ?_, ?_, ?_⟩
  · intro i _
    simp [visitGate]
  · have hset : (Finset.range (2 * len)).filter
        (fun i => visitGate start_index len i = true) =
        Finset.Ico start_index (start_index + len) := by
      ext i
      simp only [Finset.mem_filter, Finset.mem_range, Finset.mem_Ico, visitGate,
        decide_eq_true_eq]
      omega
    rw [hset, Nat.card_Ico]
    omega
  · intro j hj
    simp [visitGate]
    omega
  · intro j1 j2 h1 h2 heq
    have d1 := Nat.div_add_mod (start_index + j1) len
    have d2 := Nat.div_add_mod (start_index + j2) len
    have m1 : (start_index + j1) % len < len := Nat.mod_lt _ (by omega)
    have m2 : (start_index + j2) % len < len := Nat.mod_lt _ (by omega)
    have q1 : (start_index + j1) / len < 2 := by
      rw [Nat.div_lt_iff_lt_mul (by omega)]
      omega
    have q2 : (start_index + j2) / len < 2 := by
      rw [Nat.div_lt_iff_lt_mul (by omega)]
      omega
    interval_cases h1 : (start_index + j1) / len <;>
      interval_cases h2 : (start_index + j2) / len <;> omega
  · intro r hr
    by_cases h : start_index ≤ r
    · exact ⟨r - start_index, by omega, by
        have : start_index + (r - start_index) = r := by omega
        rw [this, Nat.mod_eq_of_lt hr]⟩
    · refine ⟨r + len - start_index, by omega, ?_⟩
      have : start_index + (r + len - start_index) = r + len := by omega
      rw [this, Nat.add_mod_right, Nat.mod_eq_of_lt hr]

/-- Witness for C3 at `len = 2`, `start_index = 1`. -/
theorem c3_visit_gate_rotation_witness :
    1 ≤ 2 ∧ 1 < 2 ∧
    ((Finset.range (2 * 2)).filter (fun i => visitGate 1 2 i = true)).card = 2 :=
  ⟨by decide, by decide, (c3_visit_gate_rotation 2 1 (by decide) (by decide)).2.1⟩

/-- Fixed concrete oracle environment used by witnesses. -/
def env0 : Env := { small_random := fun _ => 0, selected := CaseId.abort, now := 100 }

/-- C4: at the end of a `Try` phase the next state is computed in priority
order: all real cases disconnected and a `disconnected` meta-case present
gives `Disconnected`; otherwise a `would_block` meta-case gives
`WouldBlock`; otherwise the handle is reset (`Effect.reset`) and the phase
becomes `Promise` with `disconnected_count` restarted at 0.  The second
conjunct ties this to `Machine::step`: when `index` reaches `2·len` the
step call applies `transition` and restarts the slot counter. -/
theorem c4_try_phase_transition (m : Machine) (env : Env) (dc : Nat)
    (hst : m.state = State.Try dc) :
    (m.transition env =
      if m.send_case_count + m.recv_case_count = dc ∧ m.has_disconnected_case = true then
        Option.some ({ m with state := State.Disconnected }, [])
      else if m.has_would_block_case = true then
        Option.some ({ m with state := State.WouldBlock }, [])
      else
        Option.some ({ m with state := State.Promise 0 }, [Effect.reset]))
    ∧ (2 * m.len ≤ m.index → ∀ c, m.step env c =
        Option.map (fun r => (visitGate r.1.start_index r.1.len 0, { r.1 with index := 1 }, r.2))
          (m.transition env)) := by
  constructor
  · simp only [Machine.transition, hst]
    split_ifs with h1 h2 h3 h4 h5 <;> tauto
  · intro hidx c
    have hnd : ¬ m.state = State.Dead := by rw [hst]; simp
    have hnc : ¬ m.state = State.Count := by rw [hst]; simp
    rw [Machine.step, if_neg hnd, if_neg hnc, Machine.stepSlots, if_pos hidx]
    simp only [Machine.transition, hst]
    split_ifs <;> rfl

/-- Concrete machine at the end of a `Try` phase whose every real case is
disconnected, with a `would_block` meta-case but no `disconnected` one. -/
def mC4 : Machine :=
  { state := State.Try 2
    index := 4
    start_index := 0
    first_id := CaseId.sendCase 0
    deadline := Option.none
    len := 2
    send_case_count := 1
    recv_case_count := 1
    has_disconnected_case := false
    has_would_block_case := true
    has_timed_out_case := false }

/-- Witness for C4 at the machine `mC4`. -/
theorem c4_try_phase_transition_witness :
    mC4.state = State.Try 2 ∧
    (mC4.transition env0 =
      if mC4.send_case_count + mC4.recv_case_count = 2 ∧ mC4.has_disconnected_case = true then
        Option.some ({ mC4 with state := State.Disconnected }, [])
      else if mC4.has_would_block_case = true then
        Option.some ({ mC4 with state := State.WouldBlock }, [])
      else
        Option.some ({ mC4 with state := State.Promise 0 }, [Effect.reset])) :=
  ⟨rfl, (c4_try_phase_transition mC4 env0 2 rfl).1⟩

/-- C5 counterexample: in `mC4` all real cases are disconnected
(`send_case_count + recv_case_count = disconnected_count = 2`) and no
`disconnected` meta-case is declared, yet the end of the `Try` phase does
enter `WouldBlock`, contradicting the claim that it would not. -/
theorem c5_counterexample :
    mC4.send_case_count + mC4.recv_case_count = 2 ∧
    mC4.has_disconnected_case = false ∧
    mC4.has_would_block_case = true ∧
    mC4.state = State.Try 2 ∧
    mC4.transition env0 = Option.some ({ mC4 with state := State.WouldBlock }, []) :=
  ⟨rfl, rfl, rfl, rfl, rfl⟩

/-- C5 amended: the driver transitions from `Try` to `WouldBlock` exactly
when a `would_block` meta-case is present and it is not the case that all
real cases are disconnected with a `disconnected` meta-case declared; in
particular, when all real cases are disconnected but no `disconnected`
meta-case exists and a `would_block` one does, `WouldBlock` is entered. -/
theorem c5_wouldblock_condition (m : Machine) (env : Env) (dc : Nat)
    (hst : m.state = State.Try dc) :
    (∃ m' effs, m.transition env = Option.some (m', effs) ∧ m'.state = State.WouldBlock) ↔
      (m.has_would_block_case = true ∧
        ¬(m.has_disconnected_case = true ∧ m.send_case_count + m.recv_case_count = dc)) := by
  simp only [Machine.transition, hst]
  split_ifs with h1 h2
  · constructor
    · rintro ⟨m', effs, hm, hs⟩
      cases hm
      simp at hs
    · rintro ⟨_, hno⟩
      exact absurd h1 hno
  · constructor
    · rintro ⟨m', effs, hm, hs⟩
      exact ⟨h2, h1⟩
    · rintro ⟨_, _⟩
      exact ⟨{ m with state := State.WouldBlock }, [], rfl, rfl⟩
  · constructor
    · rintro ⟨m', effs, hm, hs⟩
      cases hm
      simp at hs
    · rintro ⟨hwb, _⟩
      exact absurd hwb h2

/-- Witness for the amended C5 at the machine `mC4`. -/
theorem c5_wouldblock_condition_witness :
    mC4.state = State.Try 2 ∧
    ((∃ m' effs, mC4.transition env0 = Option.some (m', effs) ∧ m'.state = State.WouldBlock) ↔
      (mC4.has_would_block_case = true ∧
        ¬(mC4.has_disconnected_case = true ∧ mC4.send_case_count + mC4.recv_case_count = 2))) :=
  ⟨rfl, c5_wouldblock_condition mC4 env0 2 rfl⟩

/-- C8: in the `Promise` phase, a `recv` call that passes the visit gate
first calls `promise_recv`, then branches on the already-read values of
`is_disconnected` and `can_recv`: `disconnected_count` is incremented
exactly when `is_disconnected ∧ ¬can_recv`, and `current_try_select(abort)`
is emitted (after the promise) exactly when `can_recv`. -/
theorem c8_promise_recv {T : Type} (m : Machine) (env : Env) (rx : Receiver T)
    (m1 : Machine) (effs : List Effect) (dc : Nat)
    (hstep : m.step env rx.case_id = Option.some (true, m1, effs))
    (hstate : m1.state = State.Promise dc) :
    m.recv env rx = Option.some (Except.error (),
      { m1 with state :=
          State.Promise (dc + (if rx.is_disconnected ∧ ¬ rx.can_recv then 1 else 0)) },
      effs ++ [Effect.promise_recv rx.case_id] ++
        (if rx.can_recv then [Effect.try_select CaseId.abort] else [])) := by
  obtain ⟨st1, idx1, si1, fi1, dl1, ln1, sc1, rc1, hd1, hw1, ht1⟩ := m1
  simp only at hstate
  subst hstate
  simp only [Machine.recv, hstep]
  by_cases hd : rx.is_disconnected <;> by_cases hc : rx.can_recv <;>
    simp [hd, hc, List.append_assoc]

/-- Concrete machine inside a `Promise` phase about to visit its only case. -/
def mC8 : Machine :=
  { state := State.Promise 0
    index := 0
    start_index := 0
    first_id := CaseId.recvCase 0
    deadline := Option.none
    len := 1
    send_case_count := 0
    recv_case_count := 1
    has_disconnected_case := false
    has_would_block_case := false
    has_timed_out_case := false }

/-- Concrete receiver endpoint responses: disconnected and not ready. -/
def rxC8 : Receiver Nat :=
  { case_id := CaseId.recvCase 0
    try_recv := TryRecvRes.empty
    is_disconnected := true
    can_recv := false
    fulfill_recv := Option.none }

/-- The machine `mC8` after its step call consumed virtual slot 0. -/
def mC8after : Machine := { mC8 with index := 1 }

/-- Witness for C8 at `mC8` and `rxC8`. -/
theorem c8_promise_recv_witness :
    mC8.step env0 rxC8.case_id = Option.some (true, mC8after, []) ∧
    mC8after.state = State.Promise 0 ∧
    mC8.recv env0 rxC8 = Option.some (Except.error (),
      { mC8after with state :=
          State.Promise (0 + (if rxC8.is_disconnected ∧ ¬ rxC8.can_recv then 1 else 0)) },
      [] ++ [Effect.promise_recv rxC8.case_id] ++
        (if rxC8.can_recv then [Effect.try_select CaseId.abort] else [])) :=
  ⟨by decide, rfl, c8_promise_recv mC8 env0 rxC8 mC8after [] 0 (by decide) rfl⟩

/-- C9: in the `Count` phase, a `step` call with an identifier different
from `first_id` (the very first call setting `first_id`) increments `len`
and `index`, accumulates the is-send/is-recv classification counts, sets
the matching sentinel presence flags, and returns `false`, so `send` and
`recv` perform no channel operation (their effect trace stays empty); the
first `step` call whose identifier equals `first_id` ends the sweep and
transitions to `Try` with `disconnected_count = 0`, the slot counter
restarted at 0 (the same call then consumes virtual slot 0), and
`start_index = small_random(len)`. -/
theorem c9_count_phase (m : Machine) (env : Env) (c : CaseId)
    (hst : m.state = State.Count) :
    (m.first_id ≠ c →
      m.step env c = Option.some (false, m.countCase c, []) ∧
      (m.countCase c).state = State.Count ∧
      (m.countCase c).len = m.len + 1 ∧
      (m.countCase c).index = m.index + 1 ∧
      (m.countCase c).send_case_count = m.send_case_count + (if c.is_send then 1 else 0) ∧
      (m.countCase c).recv_case_count = m.recv_case_count + (if c.is_recv then 1 else 0) ∧
      (m.countCase c).has_disconnected_case
        = (m.has_disconnected_case || decide (c = CaseId.disconnected)) ∧
      (m.countCase c).has_would_block_case
        = (m.has_would_block_case || decide (c = CaseId.would_block)) ∧
      (m.countCase c).has_timed_out_case
        = (m.has_timed_out_case || decide (c = CaseId.timed_out)) ∧
      (m.countCase c).first_id = (if m.len = 0 then c else m.first_id) ∧
      (∀ (T : Type) (tx : Sender) (msg : T), tx.case_id = c →
        m.send env tx msg = Option.some (Except.error msg, m.countCase c, [])) ∧
      (∀ (T : Type) (rx : Receiver T), rx.case_id = c →
        m.recv env rx = Option.some (Except.error (), m.countCase c, [])))
    ∧ (m.first_id = c → 1 ≤ m.len →
        m.step env c = Option.some (visitGate (env.small_random m.len) m.len 0,
          { m with
            state := State.Try 0
            index := 0 + 1
            start_index := env.small_random m.len }, [])) := by
  constructor
  · intro hne
    have hs : m.step env c = Option.some (false, m.countCase c, []) := by
      simp [Machine.step, hst, hne]
    refine ⟨hs, by simp [Machine.countCase, hst], rfl, rfl, rfl, rfl, rfl, rfl, rfl, rfl,
      ?_, ?_⟩
    · intro T tx msg htx
      rw [Machine.send, htx, hs]
    · intro T rx hrx
      rw [Machine.recv, hrx, hs]
  · intro heq hlen
    have hnd : ¬ m.state = State.Dead := by rw [hst]; simp
    rw [Machine.step, if_neg hnd, if_pos hst, if_neg (by simp [heq]), Machine.stepSlots]
    simp only
    rw [if_neg (by simp; omega)]

/-- Witness for C9: counting one case on a fresh machine, and closing the
sweep on a machine that has counted one case. -/
theorem c9_count_phase_witness :
    Machine.new.state = State.Count ∧
    Machine.new.first_id ≠ CaseId.recvCase 0 ∧
    Machine.new.step env0 (CaseId.recvCase 0)
      = Option.some (false, Machine.new.countCase (CaseId.recvCase 0), []) ∧
    (Machine.new.countCase (CaseId.recvCase 0)).state = State.Count ∧
    (Machine.new.countCase (CaseId.recvCase 0)).first_id = CaseId.recvCase 0 ∧
    (Machine.new.countCase (CaseId.recvCase 0)).step env0 (CaseId.recvCase 0)
      = Option.some (visitGate (env0.small_random 1) 1 0,
          { Machine.new.countCase (CaseId.recvCase 0) with
            state := State.Try 0
            index := 0 + 1
            start_index := env0.small_random 1 }, []) := by
  have h1 := (c9_count_phase Machine.new env0 (CaseId.recvCase 0) rfl).1 (by decide)
  have h2 := (c9_count_phase (Machine.new.countCase (CaseId.recvCase 0)) env0
    (CaseId.recvCase 0) rfl).2 (by decide) (by decide)
  exact ⟨rfl, by decide, h1.1, h1.2.1, by decide, h2⟩

/-- A dead driver rejects `step` with a panic (`assert!`), modelled as `none`. -/
theorem step_dead (m : Machine) (env : Env) (c : CaseId) (h : m.state = State.Dead) :
    m.step env c = Option.none := by
  simp [Machine.step, h]

/-- A dead driver rejects `send` with a panic. -/
theorem send_dead {T : Type} (m : Machine) (env : Env) (tx : Sender) (msg : T)
    (h : m.state = State.Dead) : m.send env tx msg = Option.none := by
  unfold Machine.send
  rw [step_dead m env tx.case_id h]

/-- A dead driver rejects `recv` with a panic. -/
theorem recv_dead {T : Type} (m : Machine) (env : Env) (rx : Receiver T)
    (h : m.state = State.Dead) : m.recv env rx = Option.none := by
  unfold Machine.recv
  rw [step_dead m env rx.case_id h]

/-- A dead driver rejects `disconnected` with a panic. -/
theorem disconnected_dead (m : Machine) (env : Env) (h : m.state = State.Dead) :
    m.disconnected env = Option.none := by
  unfold Machine.disconnected
  rw [step_dead m env CaseId.disconnected h]

/-- A dead driver rejects `would_block` with a panic. -/
theorem would_block_dead (m : Machine) (env : Env) (h : m.state = State.Dead) :
    m.would_block env = Option.none := by
  unfold Machine.would_block
  rw [step_dead m env CaseId.would_block h]

/-- A dead driver rejects `timed_out` with a panic. -/
theorem timed_out_dead (m : Machine) (env : Env) (h : m.state = State.Dead) :
    m.timed_out env = Option.none := by
  unfold Machine.timed_out
  rw [step_dead m env CaseId.timed_out h]

/-- A committing `send` does so in the `Try` or `Fulfill` phase. -/
theorem send_commit_state {T : Type} (m : Machine) (env : Env) (tx : Sender) (msg : T)
    (r : Except T Unit × Machine × List Effect)
    (hsend : m.send env tx msg = Option.some r) (hok : r.1 = Except.ok ()) :
    (∃ dc, r.2.1.state = State.Try dc) ∨ (∃ cid, r.2.1.state = State.Fulfill cid) := by
  unfold Machine.send at hsend
  split at hsend
  · cases hsend
  · cases hsend
    simp at hok
  · split at hsend <;> (try split at hsend) <;> (try split at hsend) <;>
      (try cases hsend) <;> simp_all

/-- A committing `recv` does so in the `Try` or `Fulfill` phase. -/
theorem recv_commit_state {T : Type} (m : Machine) (env : Env) (rx : Receiver T)
    (r : Except Unit T × Machine × List Effect)
    (hrecv : m.recv env rx = Option.some r) (hok : ∃ v, r.1 = Except.ok v) :
    (∃ dc, r.2.1.state = State.Try dc) ∨ (∃ cid, r.2.1.state = State.Fulfill cid) := by
  obtain ⟨v, hok⟩ := hok
  unfold Machine.recv at hrecv
  split at hrecv
  · cases hrecv
  · cases hrecv
    simp at hok
  · split at hrecv <;> (try split at hrecv) <;> (try split at hrecv) <;>
      (try cases hrecv) <;> simp_all

/-- A committing wrapped `send` leaves the driver dead. -/
theorem selectSend_commit_dead {T : Type} (m : Machine) (env : Env) (tx : Sender) (msg : T)
    (r : Except T Unit × Machine × List Effect)
    (hsend : selectSend m env tx msg = Option.some r) (hok : r.1 = Except.ok ()) :
    r.2.1.state = State.Dead := by
  unfold selectSend at hsend
  split at hsend
  · cases hsend
  · cases hsend
    rfl
  · cases hsend
    simp at hok

/-- A committing wrapped `recv` leaves the driver dead. -/
theorem selectRecv_commit_dead {T : Type} (m : Machine) (env : Env) (rx : Receiver T)
    (r : Except Unit T × Machine × List Effect)
    (hrecv : selectRecv m env rx = Option.some r) (hok : ∃ v, r.1 = Except.ok v) :
    r.2.1.state = State.Dead := by
  obtain ⟨v, hok⟩ := hok
  unfold selectRecv at hrecv
  split at hrecv
  · cases hrecv
  · cases hrecv
    rfl
  · cases hrecv
    simp at hok

/-- C1: a `send`/`recv` that commits does so in the `Try` or `Fulfill`
phase; after the commit the (wrapped) driver is `Dead`; and a dead driver
refuses every further operation (the `assert!`/`panic!` paths, modelled as
`none`). -/
theorem c1_commit_makes_dead :
    (∀ (T : Type) (m : Machine) (env : Env) (tx : Sender) (msg : T)
        (r : Except T Unit × Machine × List Effect),
      m.send env tx msg = Option.some r → r.1 = Except.ok () →
      ((∃ dc, r.2.1.state = State.Try dc) ∨ (∃ cid, r.2.1.state = State.Fulfill cid)))
    ∧ (∀ (T : Type) (m : Machine) (env : Env) (rx : Receiver T)
        (r : Except Unit T × Machine × List Effect),
      m.recv env rx = Option.some r → (∃ v, r.1 = Except.ok v) →
      ((∃ dc, r.2.1.state = State.Try dc) ∨ (∃ cid, r.2.1.state = State.Fulfill cid)))
    ∧ (∀ (T : Type) (m : Machine) (env : Env) (tx : Sender) (msg : T)
        (r : Except T Unit × Machine × List Effect),
      selectSend m env tx msg = Option.some r → r.1 = Except.ok () →
      r.2.1.state = State.Dead)
    ∧ (∀ (T : Type) (m : Machine) (env : Env) (rx : Receiver T)
        (r : Except Unit T × Machine × List Effect),
      selectRecv m env rx = Option.some r → (∃ v, r.1 = Except.ok v) →
      r.2.1.state = State.Dead)
    ∧ (∀ (m : Machine), m.state = State.Dead → ∀ env : Env,
        (∀ c, m.step env c = Option.none) ∧
        (∀ (T : Type) (tx : Sender) (msg : T), m.send env tx msg = Option.none) ∧
        (∀ (T : Type) (rx : Receiver T), m.recv env rx = Option.none) ∧
        m.disconnected env = Option.none ∧
        m.would_block env = Option.none ∧
        m.timed_out env = Option.none) := by
  refine ⟨?_, ?_, ?_, ?_, ?_⟩
  · intro T m env tx msg r h1 h2
    exact send_commit_state m env tx msg r h1 h2
  · intro T m env rx r h1 h2
    exact recv_commit_state m env rx r h1 h2
  · intro T m env tx msg r h1 h2
    exact selectSend_commit_dead m env tx msg r h1 h2
  · intro T m env rx r h1 h2
    exact selectRecv_commit_dead m env rx r h1 h2
  · intro m h env
    exact ⟨fun c => step_dead m env c h, fun T tx msg => send_dead m env tx msg h,
      fun T rx => recv_dead m env rx h, disconnected_dead m env h,
      would_block_dead m env h, timed_out_dead m env h⟩

/-- Concrete machine in a `Try` phase about to visit its only (send) case. -/
def mC1 : Machine :=
  { state := State.Try 0
    index := 0
    start_index := 0
    first_id := CaseId.sendCase 0
    deadline := Option.none
    len := 1
    send_case_count := 1
    recv_case_count := 0
    has_disconnected_case := false
    has_would_block_case := false
    has_timed_out_case := false }

/-- Concrete sender endpoint whose `try_send` succeeds. -/
def txC1 : Sender :=
  { case_id := CaseId.sendCase 0
    try_send := TrySendRes.ok
    is_disconnected := false
    can_send := true
    fulfill_send_ok := true }

/-- The dead driver produced by the committing witness send. -/
def mC1dead : Machine := { mC1 with index := 1, state := State.Dead }

/-- Witness for C1: a concrete committing send on `mC1` leaves the wrapped
driver dead. -/
theorem c1_commit_makes_dead_witness :
    selectSend mC1 env0 txC1 (5 : Nat)
      = Option.some (Except.ok (), mC1dead, []) ∧
    mC1dead.state = State.Dead :=
  ⟨rfl,
    c1_commit_makes_dead.2.2.1 Nat mC1 env0 txC1 5 (Except.ok (), mC1dead, [])
      rfl rfl⟩

/-- In a terminal state, `step` preserves the state and emits no effects. -/
theorem step_terminal (m : Machine) (env : Env) (c : CaseId)
    (h : m.state = State.Disconnected ∨ m.state = State.WouldBlock ∨ m.state = State.TimedOut) :
    ∀ r, m.step env c = Option.some r → r.2.1.state = m.state ∧ r.2.2 = [] := by
  intro r hr
  have hnd : ¬ m.state = State.Dead := by rcases h with h | h | h <;> simp [h]
  have hnc : ¬ m.state = State.Count := by rcases h with h | h | h <;> simp [h]
  rw [Machine.step, if_neg hnd, if_neg hnc, Machine.stepSlots] at hr
  split at hr
  · have ht : m.transition env = Option.some (m, []) := by
      rcases h with h | h | h <;> simp [Machine.transition, h]
    rw [ht] at hr
    cases hr
    exact ⟨rfl, rfl⟩
  · cases hr
    exact ⟨rfl, rfl⟩

/-- In a terminal state, `send` fails and preserves the state. -/
theorem send_terminal {T : Type} (m : Machine) (env : Env) (tx : Sender) (msg : T)
    (h : m.state = State.Disconnected ∨ m.state = State.WouldBlock ∨ m.state = State.TimedOut) :
    ∀ r, m.send env tx msg = Option.some r →
      r.1 = Except.error msg ∧ r.2.1.state = m.state := by
  intro r hr
  unfold Machine.send at hr
  split at hr
  · cases hr
  · cases hr
    rename_i heq
    exact ⟨rfl, (step_terminal m env tx.case_id h _ heq).1⟩
  · rename_i heq
    have hst := step_terminal m env tx.case_id h _ heq
    rcases h with h | h | h <;>
      (split at hr <;> (try split at hr) <;> (try cases hr) <;> simp_all)

/-- In a terminal state, `recv` fails and preserves the state. -/
theorem recv_terminal {T : Type} (m : Machine) (env : Env) (rx : Receiver T)
    (h : m.state = State.Disconnected ∨ m.state = State.WouldBlock ∨ m.state = State.TimedOut) :
    ∀ r, m.recv env rx = Option.some r →
      r.1 = Except.error () ∧ r.2.1.state = m.state := by
  intro r hr
  unfold Machine.recv at hr
  split at hr
  · cases hr
  · cases hr
    rename_i heq
    exact ⟨rfl, (step_terminal m env rx.case_id h _ heq).1⟩
  · rename_i heq
    have hst := step_terminal m env rx.case_id h _ heq
    rcases h with h | h | h <;>
      (split at hr <;> (try split at hr) <;> (try cases hr) <;> simp_all)

/-- In a terminal state, `disconnected` preserves the state and returns true only in `Disconnected`. -/
theorem disconnected_terminal (m : Machine) (env : Env)
    (h : m.state = State.Disconnected ∨ m.state = State.WouldBlock ∨ m.state = State.TimedOut) :
    ∀ r, m.disconnected env = Option.some r →
      r.2.1.state = m.state ∧ (r.1 = true → m.state = State.Disconnected) := by
  intro r hr
  unfold Machine.disconnected at hr
  split at hr
  · cases hr
  · cases hr
    rename_i heq
    exact ⟨(step_terminal m env CaseId.disconnected h _ heq).1, by intro hx; cases hx⟩
  · cases hr
    rename_i heq
    have hst := step_terminal m env CaseId.disconnected h _ heq
    refine ⟨hst.1, ?_⟩
    intro ht
    simp only [decide_eq_true_eq] at ht
    rw [← hst.1, ht]

/-- In a terminal state, `would_block` preserves the state and returns true only in `WouldBlock`. -/
theorem would_block_terminal (m : Machine) (env : Env)
    (h : m.state = State.Disconnected ∨ m.state = State.WouldBlock ∨ m.state = State.TimedOut) :
    ∀ r, m.would_block env = Option.some r →
      r.2.1.state = m.state ∧ (r.1 = true → m.state = State.WouldBlock) := by
  intro r hr
  unfold Machine.would_block at hr
  split at hr
  · cases hr
  · cases hr
    rename_i heq
    exact ⟨(step_terminal m env CaseId.would_block h _ heq).1, by intro hx; cases hx⟩
  · cases hr
    rename_i heq
    have hst := step_terminal m env CaseId.would_block h _ heq
    refine ⟨hst.1, ?_⟩
    intro ht
    simp only [decide_eq_true_eq] at ht
    rw [← hst.1, ht]

/-- In a terminal state, `timed_out` preserves the state and returns true only in `TimedOut`. -/
theorem timed_out_terminal (m : Machine) (env : Env)
    (h : m.state = State.Disconnected ∨ m.state = State.WouldBlock ∨ m.state = State.TimedOut) :
    ∀ r, m.timed_out env = Option.some r →
      r.2.1.state = m.state ∧ (r.1 = true → m.state = State.TimedOut) := by
  intro r hr
  unfold Machine.timed_out at hr
  split at hr
  · cases hr
  · cases hr
    rename_i heq
    exact ⟨(step_terminal m env CaseId.timed_out h _ heq).1, by intro hx; cases hx⟩
  · cases hr
    rename_i heq
    have hst := step_terminal m env CaseId.timed_out h _ heq
    refine ⟨hst.1, ?_⟩
    intro ht
    simp only [decide_eq_true_eq] at ht
    rw [← hst.1, ht]

/-- In `Disconnected`, a gate-passing `disconnected` call returns true. -/
theorem disconnected_match (m : Machine) (env : Env)
    (hm : m.state = State.Disconnected)
    (g : Bool) (m1 : Machine) (effs : List Effect)
    (hstep : m.step env CaseId.disconnected = Option.some (g, m1, effs)) (hg : g = true) :
    m.disconnected env = Option.some (true, m1, effs) := by
  subst hg
  have hst := step_terminal m env CaseId.disconnected (Or.inl hm) _ hstep
  unfold Machine.disconnected
  rw [hstep]
  simp only at hst
  simp [hst.1, hm]

/-- A true `disconnected` return makes the wrapped driver dead, and reuse panics. -/
theorem selectDisconnected_true_dead (m : Machine) (env : Env) :
    ∀ r, selectDisconnected m env = Option.some r → r.1 = true →
      r.2.1.state = State.Dead ∧ ∀ (env2 : Env) (c : CaseId), r.2.1.step env2 c = Option.none := by
  intro r hr ht
  unfold selectDisconnected at hr
  split at hr
  · cases hr
  · split at hr
    · cases hr
      exact ⟨rfl, fun env2 c => step_dead _ env2 c rfl⟩
    · cases hr
      cases ht

/-- In `WouldBlock`, a gate-passing `would_block` call returns true. -/
theorem would_block_match (m : Machine) (env : Env)
    (hm : m.state = State.WouldBlock)
    (g : Bool) (m1 : Machine) (effs : List Effect)
    (hstep : m.step env CaseId.would_block = Option.some (g, m1, effs)) (hg : g = true) :
    m.would_block env = Option.some (true, m1, effs) := by
  subst hg
  have hst := step_terminal m env CaseId.would_block (Or.inr (Or.inl hm)) _ hstep
  unfold Machine.would_block
  rw [hstep]
  simp only at hst
  simp [hst.1, hm]

/-- In `TimedOut`, a gate-passing `timed_out` call returns true. -/
theorem timed_out_match (m : Machine) (env : Env)
    (hm : m.state = State.TimedOut)
    (g : Bool) (m1 : Machine) (effs : List Effect)
    (hstep : m.step env CaseId.timed_out = Option.some (g, m1, effs)) (hg : g = true) :
    m.timed_out env = Option.some (true, m1, effs) := by
  subst hg
  have hst := step_terminal m env CaseId.timed_out (Or.inr (Or.inr hm)) _ hstep
  unfold Machine.timed_out
  rw [hstep]
  simp only at hst
  simp [hst.1, hm]

/-- A true `would_block` return makes the wrapped driver dead, and reuse panics. -/
theorem selectWouldBlock_true_dead (m : Machine) (env : Env) :
    ∀ r, selectWouldBlock m env = Option.some r → r.1 = true →
      r.2.1.state = State.Dead ∧ ∀ (env2 : Env) (c : CaseId), r.2.1.step env2 c = Option.none := by
  intro r hr ht
  unfold selectWouldBlock at hr
  split at hr
  · cases hr
  · split at hr
    · cases hr
      exact ⟨rfl, fun env2 c => step_dead _ env2 c rfl⟩
    · cases hr
      cases ht

/-- A true `timed_out` return makes the wrapped driver dead, and reuse panics. -/
theorem selectTimedOut_true_dead (m : Machine) (env : Env) :
    ∀ r, selectTimedOut m env = Option.some r → r.1 = true →
      r.2.1.state = State.Dead ∧ ∀ (env2 : Env) (c : CaseId), r.2.1.step env2 c = Option.none := by
  intro r hr ht
  unfold selectTimedOut at hr
  split at hr
  · cases hr
  · split at hr
    · cases hr
      exact ⟨rfl, fun env2 c => step_dead _ env2 c rfl⟩
    · cases hr
      cases ht

/-- C2: in a terminal state (`Disconnected`, `WouldBlock`, `TimedOut`) the
state persists under every operation; a synthetic call returns true only in
its matching terminal state, and does return true there once the visit gate
passes; immediately after a true return the wrapped driver is `Dead`, so
the first subsequent operation panics (modelled as `none`). -/
theorem c2_terminal_stability (m : Machine) (env : Env)
    (h : m.state = State.Disconnected ∨ m.state = State.WouldBlock ∨ m.state = State.TimedOut) :
    (∀ c r, m.step env c = Option.some r → r.2.1.state = m.state ∧ r.2.2 = []) ∧
    (∀ (T : Type) (tx : Sender) (msg : T) r, m.send env tx msg = Option.some r →
      r.1 = Except.error msg ∧ r.2.1.state = m.state) ∧
    (∀ (T : Type) (rx : Receiver T) r, m.recv env rx = Option.some r →
      r.1 = Except.error () ∧ r.2.1.state = m.state) ∧
    (∀ r, m.disconnected env = Option.some r →
      r.2.1.state = m.state ∧ (r.1 = true → m.state = State.Disconnected)) ∧
    (∀ r, m.would_block env = Option.some r →
      r.2.1.state = m.state ∧ (r.1 = true → m.state = State.WouldBlock)) ∧
    (∀ r, m.timed_out env = Option.some r →
      r.2.1.state = m.state ∧ (r.1 = true → m.state = State.TimedOut)) ∧
    (m.state = State.Disconnected → ∀ g m1 effs,
      m.step env CaseId.disconnected = Option.some (g, m1, effs) → g = true →
      m.disconnected env = Option.some (true, m1, effs)) ∧
    (m.state = State.WouldBlock → ∀ g m1 effs,
      m.step env CaseId.would_block = Option.some (g, m1, effs) → g = true →
      m.would_block env = Option.some (true, m1, effs)) ∧
    (m.state = State.TimedOut → ∀ g m1 effs,
      m.step env CaseId.timed_out = Option.some (g, m1, effs) → g = true →
      m.timed_out env = Option.some (true, m1, effs)) ∧
    (∀ r, selectDisconnected m env = Option.some r → r.1 = true →
      r.2.1.state = State.Dead ∧ ∀ (env2 : Env) (c : CaseId), r.2.1.step env2 c = Option.none) ∧
    (∀ r, selectWouldBlock m env = Option.some r → r.1 = true →
      r.2.1.state = State.Dead ∧ ∀ (env2 : Env) (c : CaseId), r.2.1.step env2 c = Option.none) ∧
    (∀ r, selectTimedOut m env = Option.some r → r.1 = true →
      r.2.1.state = State.Dead ∧ ∀ (env2 : Env) (c : CaseId), r.2.1.step env2 c = Option.none) := by
  refine ⟨fun c r hr => step_terminal m env c h r hr,
    fun T tx msg r hr => send_terminal m env tx msg h r hr,
    fun T rx r hr => recv_terminal m env rx h r hr,
    fun r hr => disconnected_terminal m env h r hr,
    fun r hr => would_block_terminal m env h r hr,
    fun r hr => timed_out_terminal m env h r hr,
    fun hm g m1 effs hstep hg => disconnected_match m env hm g m1 effs hstep hg,
    fun hm g m1 effs hstep hg => would_block_match m env hm g m1 effs hstep hg,
    fun hm g m1 effs hstep hg => timed_out_match m env hm g m1 effs hstep hg,
    fun r hr ht => selectDisconnected_true_dead m env r hr ht,
    fun r hr ht => selectWouldBlock_true_dead m env r hr ht,
    fun r hr ht => selectTimedOut_true_dead m env r hr ht⟩

/-- Concrete machine resting in the terminal `Disconnected` state. -/
def mC2 : Machine :=
  { state := State.Disconnected
    index := 1
    start_index := 0
    first_id := CaseId.recvCase 0
    deadline := Option.none
    len := 2
    send_case_count := 0
    recv_case_count := 1
    has_disconnected_case := true
    has_would_block_case := false
    has_timed_out_case := false }

/-- The machine `mC2` after one more step call. -/
def mC2after : Machine := { mC2 with index := 2 }

/-- Witness for C2 at `mC2`: the matching synthetic call returns true. -/
theorem c2_terminal_stability_witness :
    (mC2.state = State.Disconnected ∨ mC2.state = State.WouldBlock ∨
      mC2.state = State.TimedOut) ∧
    mC2.disconnected env0 = Option.some (true, mC2after, []) ∧
    mC2.state = State.Disconnected := by
  have h := (c2_terminal_stability mC2 env0 (Or.inl rfl)).2.2.2.1
    (true, mC2after, []) (by decide)
  exact ⟨Or.inl rfl, by decide, h.2 rfl⟩

/-- Replace only the `has_timed_out_case` flag of a machine. -/
def setTflag (m : Machine) (b : Bool) : Machine := { m with has_timed_out_case := b }

/-- How the `has_timed_out_case` flag itself evolves across one `step`:
it is or-ed with the sentinel test during a counting call and untouched
everywhere else. -/
def tFlagAfter (m : Machine) (c : CaseId) (b : Bool) : Bool :=
  if m.state = State.Count ∧ m.first_id ≠ c then b || decide (c = CaseId.timed_out) else b

/-- `transition` never reads `has_timed_out_case`. -/
theorem transition_tflag (st : State) (idx si : Nat) (fi : CaseId) (dl : Option Nat)
    (ln sc rc : Nat) (hd hw ht b : Bool) (env : Env) :
    Machine.transition ⟨st, idx, si, fi, dl, ln, sc, rc, hd, hw, b⟩ env
      = (Machine.transition ⟨st, idx, si, fi, dl, ln, sc, rc, hd, hw, ht⟩ env).map
          (fun r => (setTflag r.1 b, r.2)) := by
  cases st <;>
    first
      | (simp only [Machine.transition] <;>
          first | (split_ifs <;> rfl) | rfl)
      | (cases dl <;> simp only [Machine.transition] <;>
          first | (split_ifs <;> rfl) | rfl)

/-- The slot machinery never reads `has_timed_out_case`. -/
theorem stepSlots_tflag (st : State) (idx si : Nat) (fi : CaseId) (dl : Option Nat)
    (ln sc rc : Nat) (hd hw ht b : Bool) (env : Env) :
    Machine.stepSlots ⟨st, idx, si, fi, dl, ln, sc, rc, hd, hw, b⟩ env
      = (Machine.stepSlots ⟨st, idx, si, fi, dl, ln, sc, rc, hd, hw, ht⟩ env).map
          (fun r => (r.1, setTflag r.2.1 b, r.2.2)) := by
  unfold Machine.stepSlots
  simp only
  rw [transition_tflag st idx si fi dl ln sc rc hd hw ht b env]
  split_ifs with h
  · cases htr : Machine.transition ⟨st, idx, si, fi, dl, ln, sc, rc, hd, hw, ht⟩ env with
    | none => rfl
    | some r => rfl
  · rfl

/-- `step` never reads `has_timed_out_case`: runs differing only in that
flag produce the same gate decision, effects, and machine up to the flag. -/
theorem step_tflag (m : Machine) (env : Env) (c : CaseId) (b : Bool) :
    (setTflag m b).step env c
      = (m.step env c).map (fun r => (r.1, setTflag r.2.1 (tFlagAfter m c b), r.2.2)) := by
  obtain ⟨st, idx, si, fi, dl, ln, sc, rc, hd, hw, ht⟩ := m
  by_cases hdead : st = State.Dead
  · subst hdead
    rfl
  · by_cases hcount : st = State.Count
    · subst hcount
      by_cases hne : fi ≠ c
      · simp [Machine.step, setTflag, Machine.countCase, hne, tFlagAfter]
      · simp only [ne_eq, not_not] at hne
        subst hne
        have ht1 : tFlagAfter ⟨State.Count, idx, si, fi, dl, ln, sc, rc, hd, hw, ht⟩ fi b = b := by
          simp [tFlagAfter]
        rw [ht1]
        have h1 : (setTflag ⟨State.Count, idx, si, fi, dl, ln, sc, rc, hd, hw, ht⟩ b).step env fi
            = Machine.stepSlots ⟨State.Try 0, 0, env.small_random ln, fi, dl, ln, sc, rc, hd, hw, b⟩
                env := by
          simp [Machine.step, setTflag]
        have h2 : Machine.step ⟨State.Count, idx, si, fi, dl, ln, sc, rc, hd, hw, ht⟩ env fi
            = Machine.stepSlots ⟨State.Try 0, 0, env.small_random ln, fi, dl, ln, sc, rc, hd, hw, ht⟩
                env := by
          simp [Machine.step]
        rw [h1, h2, stepSlots_tflag (State.Try 0) 0 (env.small_random ln) fi dl ln sc rc hd hw ht b env]
    · have h1 : (setTflag ⟨st, idx, si, fi, dl, ln, sc, rc, hd, hw, ht⟩ b).step env c
          = Machine.stepSlots ⟨st, idx, si, fi, dl, ln, sc, rc, hd, hw, b⟩ env := by
        simp [Machine.step, setTflag, hdead, hcount]
      have h2 : Machine.step ⟨st, idx, si, fi, dl, ln, sc, rc, hd, hw, ht⟩ env c
          = Machine.stepSlots ⟨st, idx, si, fi, dl, ln, sc, rc, hd, hw, ht⟩ env := by
        simp [Machine.step, hdead, hcount]
      rw [h1, h2, stepSlots_tflag st idx si fi dl ln sc rc hd hw ht b env]
      have : tFlagAfter ⟨st, idx, si, fi, dl, ln, sc, rc, hd, hw, ht⟩ c b = b := by
        simp [tFlagAfter, hcount]
      rw [this]

/-- `send` never reads `has_timed_out_case`. -/
theorem send_tflag {T : Type} (m : Machine) (env : Env) (tx : Sender) (msg : T) (b : Bool) :
    (setTflag m b).send env tx msg
      = (m.send env tx msg).map
          (fun r => (r.1, setTflag r.2.1 (tFlagAfter m tx.case_id b), r.2.2)) := by
  unfold Machine.send
  rw [step_tflag]
  cases hstep : m.step env tx.case_id with
  | none => rfl
  | some r =>
    obtain ⟨g, m1, effs⟩ := r
    cases g
    · rfl
    · obtain ⟨st1, idx1, si1, fi1, dl1, ln1, sc1, rc1, hd1, hw1, ht1⟩ := m1
      simp only [Option.map_some', setTflag]
      cases st1 <;>
        first
          | rfl
          | (cases tx.try_send <;> rfl)
          | (dsimp only; split_ifs <;> rfl)

/-- `recv` never reads `has_timed_out_case`. -/
theorem recv_tflag {T : Type} (m : Machine) (env : Env) (rx : Receiver T) (b : Bool) :
    (setTflag m b).recv env rx
      = (m.recv env rx).map
          (fun r => (r.1, setTflag r.2.1 (tFlagAfter m rx.case_id b), r.2.2)) := by
  unfold Machine.recv
  rw [step_tflag]
  cases hstep : m.step env rx.case_id with
  | none => rfl
  | some r =>
    obtain ⟨g, m1, effs⟩ := r
    cases g
    · rfl
    · obtain ⟨st1, idx1, si1, fi1, dl1, ln1, sc1, rc1, hd1, hw1, ht1⟩ := m1
      simp only [Option.map_some', setTflag]
      cases st1 <;>
        first
          | rfl
          | (cases rx.try_recv <;> rfl)
          | (dsimp only; split_ifs <;>
              first
                | rfl
                | (cases rx.fulfill_recv <;> rfl))

/-- `disconnected` never reads `has_timed_out_case`. -/
theorem disconnected_tflag (m : Machine) (env : Env) (b : Bool) :
    (setTflag m b).disconnected env
      = (m.disconnected env).map
          (fun r => (r.1, setTflag r.2.1 (tFlagAfter m CaseId.disconnected b), r.2.2)) := by
  unfold Machine.disconnected
  rw [step_tflag]
  cases hstep : m.step env CaseId.disconnected with
  | none => rfl
  | some r =>
    obtain ⟨g, m1, effs⟩ := r
    cases g <;> rfl

/-- `would_block` never reads `has_timed_out_case`. -/
theorem would_block_tflag (m : Machine) (env : Env) (b : Bool) :
    (setTflag m b).would_block env
      = (m.would_block env).map
          (fun r => (r.1, setTflag r.2.1 (tFlagAfter m CaseId.would_block b), r.2.2)) := by
  unfold Machine.would_block
  rw [step_tflag]
  cases hstep : m.step env CaseId.would_block with
  | none => rfl
  | some r =>
    obtain ⟨g, m1, effs⟩ := r
    cases g <;> rfl

/-- `timed_out` never reads `has_timed_out_case`. -/
theorem timed_out_tflag (m : Machine) (env : Env) (b : Bool) :
    (setTflag m b).timed_out env
      = (m.timed_out env).map
          (fun r => (r.1, setTflag r.2.1 (tFlagAfter m CaseId.timed_out b), r.2.2)) := by
  unfold Machine.timed_out
  rw [step_tflag]
  cases hstep : m.step env CaseId.timed_out with
  | none => rfl
  | some r =>
    obtain ⟨g, m1, effs⟩ := r
    cases g <;> rfl

/-- In `TimedOut`, a gate-passing `timed_out` call returns true no matter
what `has_timed_out_case` holds (the conclusion never consults the flag). -/
theorem timed_out_true_no_flag (m : Machine) (env : Env)
    (hstate : m.state = State.TimedOut) (hidx : m.index < 2 * m.len)
    (hgate : visitGate m.start_index m.len m.index = true) :
    m.timed_out env = Option.some (true, { m with index := m.index + 1 }, []) := by
  have hnd : ¬ m.state = State.Dead := by simp [hstate]
  have hnc : ¬ m.state = State.Count := by simp [hstate]
  unfold Machine.timed_out
  rw [Machine.step, if_neg hnd, if_neg hnc, Machine.stepSlots, if_neg (by omega)]
  rw [hgate]
  simp [hstate]

/-- C10: `has_timed_out_case` is never read after being written during
`Count`: two machines that differ only in that flag produce identical gate
decisions, return values, effects, and successor machines (up to the flag,
which evolves identically), for `step`, `send`, `recv` and all three
synthetic calls; and the driver reaches `TimedOut` and answers `timed_out()
= true` purely from the deadline, even when no `timed_out` case was
declared. -/
theorem c10_timed_out_flag_unread :
    (∀ (m : Machine) (env : Env) (c : CaseId) (b : Bool),
      (setTflag m b).step env c
        = (m.step env c).map (fun r => (r.1, setTflag r.2.1 (tFlagAfter m c b), r.2.2)))
    ∧ (∀ (T : Type) (m : Machine) (env : Env) (tx : Sender) (msg : T) (b : Bool),
      (setTflag m b).send env tx msg
        = (m.send env tx msg).map
            (fun r => (r.1, setTflag r.2.1 (tFlagAfter m tx.case_id b), r.2.2)))
    ∧ (∀ (T : Type) (m : Machine) (env : Env) (rx : Receiver T) (b : Bool),
      (setTflag m b).recv env rx
        = (m.recv env rx).map
            (fun r => (r.1, setTflag r.2.1 (tFlagAfter m rx.case_id b), r.2.2)))
    ∧ (∀ (m : Machine) (env : Env) (b : Bool),
      (setTflag m b).disconnected env
        = (m.disconnected env).map
            (fun r => (r.1, setTflag r.2.1 (tFlagAfter m CaseId.disconnected b), r.2.2)))
    ∧ (∀ (m : Machine) (env : Env) (b : Bool),
      (setTflag m b).would_block env
        = (m.would_block env).map
            (fun r => (r.1, setTflag r.2.1 (tFlagAfter m CaseId.would_block b), r.2.2)))
    ∧ (∀ (m : Machine) (env : Env) (b : Bool),
      (setTflag m b).timed_out env
        = (m.timed_out env).map
            (fun r => (r.1, setTflag r.2.1 (tFlagAfter m CaseId.timed_out b), r.2.2)))
    ∧ (∀ (m : Machine) (env : Env), m.state = State.TimedOut → m.index < 2 * m.len →
        visitGate m.start_index m.len m.index = true →
        m.timed_out env = Option.some (true, { m with index := m.index + 1 }, [])) :=
  ⟨step_tflag, fun _ => send_tflag, fun _ => recv_tflag, disconnected_tflag,
    would_block_tflag, timed_out_tflag,
    fun m env h1 h2 h3 => timed_out_true_no_flag m env h1 h2 h3⟩

/-- Concrete machine resting in `TimedOut` with no `timed_out` case declared. -/
def mC10 : Machine :=
  { state := State.TimedOut
    index := 1
    start_index := 0
    first_id := CaseId.recvCase 0
    deadline := Option.some 5
    len := 2
    send_case_count := 0
    recv_case_count := 1
    has_disconnected_case := false
    has_would_block_case := false
    has_timed_out_case := false }

/-- Witness for C10 at `mC10`: `timed_out()` answers true without the flag. -/
theorem c10_timed_out_flag_unread_witness :
    mC10.state = State.TimedOut ∧ mC10.index < 2 * mC10.len ∧
    visitGate mC10.start_index mC10.len mC10.index = true ∧
    mC10.timed_out env0 = Option.some (true, { mC10 with index := mC10.index + 1 }, []) :=
  ⟨rfl, by decide, by decide,
    c10_timed_out_flag_unread.2.2.2.2.2.2 mC10 env0 rfl (by decide) (by decide)⟩

/-- `transition` never changes the deadline. -/
theorem transition_deadline (m : Machine) (env : Env) (m2 : Machine) (effs : List Effect)
    (h : m.transition env = Option.some (m2, effs)) : m2.deadline = m.deadline := by
  obtain ⟨st, idx, si, fi, dl, ln, sc, rc, hd, hw, ht⟩ := m
  cases st <;>
    first
      | (simp only [Machine.transition] at h <;> (try split_ifs at h) <;> cases h <;> rfl)
      | (cases dl <;> simp only [Machine.transition] at h <;> (try split_ifs at h) <;>
          cases h <;> rfl)

/-- `transition` produces `TimedOut` only from `TimedOut` itself or from a
`Fulfill` arm whose deadline has passed. -/
theorem transition_timedout (m : Machine) (env : Env) (m2 : Machine) (effs : List Effect)
    (h : m.transition env = Option.some (m2, effs)) (ht2 : m2.state = State.TimedOut) :
    m.state = State.TimedOut ∨
      ((∃ cid, m.state = State.Fulfill cid) ∧ ∃ e, m.deadline = Option.some e ∧ e ≤ env.now) := by
  obtain ⟨st, idx, si, fi, dl, ln, sc, rc, hd, hw, htc⟩ := m
  cases st <;>
    first
      | (simp only [Machine.transition] at h <;> (try split_ifs at h) <;> cases h <;> simp_all)
      | (cases dl <;> simp only [Machine.transition] at h <;> (try split_ifs at h) <;>
          cases h <;> simp_all)

/-- The slot machinery never changes the deadline. -/
theorem stepSlots_deadline (m : Machine) (env : Env)
    (r : Bool × Machine × List Effect) (h : m.stepSlots env = Option.some r) :
    r.2.1.deadline = m.deadline := by
  unfold Machine.stepSlots at h
  split at h
  · split at h
    · cases h
    · rename_i m2 effs htr
      cases h
      exact transition_deadline _ env m2 effs htr
  · cases h
    rfl

/-- `step` never changes the deadline. -/
theorem step_deadline (m : Machine) (env : Env) (c : CaseId)
    (r : Bool × Machine × List Effect) (h : m.step env c = Option.some r) :
    r.2.1.deadline = m.deadline := by
  unfold Machine.step at h
  by_cases hdead : m.state = State.Dead
  · rw [if_pos hdead] at h
    cases h
  · rw [if_neg hdead] at h
    by_cases hcount : m.state = State.Count
    · rw [if_pos hcount] at h
      by_cases hne : m.first_id ≠ c
      · rw [if_pos hne] at h
        cases h
        rfl
      · rw [if_neg hne] at h
        exact stepSlots_deadline
          { m with state := State.Try 0, index := 0, start_index := env.small_random m.len }
          env r h
    · rw [if_neg hcount] at h
      exact stepSlots_deadline m env r h

/-- The slot machinery enters `TimedOut` only at a phase boundary from
`Fulfill` with an expired deadline. -/
theorem stepSlots_timedout (m : Machine) (env : Env)
    (r : Bool × Machine × List Effect) (h : m.stepSlots env = Option.some r)
    (ht2 : r.2.1.state = State.TimedOut) :
    m.state = State.TimedOut ∨
      ((∃ cid, m.state = State.Fulfill cid) ∧ 2 * m.len ≤ m.index ∧
        ∃ e, m.deadline = Option.some e ∧ e ≤ env.now) := by
  unfold Machine.stepSlots at h
  split at h
  · rename_i hidx
    split at h
    · cases h
    · rename_i m2 effs htr
      cases h
      simp only at ht2
      rcases transition_timedout _ env m2 effs htr ht2 with h1 | h1
      · exact Or.inl h1
      · exact Or.inr ⟨h1.1, hidx, h1.2⟩
  · cases h
    simp only at ht2
    exact Or.inl ht2

/-- `step` enters `TimedOut` only from `TimedOut` itself, or at a phase
boundary (`index ≥ 2·len`) from a `Fulfill` state whose deadline has
passed. -/
theorem step_timedout (m : Machine) (env : Env) (c : CaseId)
    (r : Bool × Machine × List Effect) (h : m.step env c = Option.some r)
    (ht2 : r.2.1.state = State.TimedOut) :
    m.state = State.TimedOut ∨
      ((∃ cid, m.state = State.Fulfill cid) ∧ 2 * m.len ≤ m.index ∧
        ∃ e, m.deadline = Option.some e ∧ e ≤ env.now) := by
  unfold Machine.step at h
  by_cases hdead : m.state = State.Dead
  · rw [if_pos hdead] at h
    cases h
  · rw [if_neg hdead] at h
    by_cases hcount : m.state = State.Count
    · rw [if_pos hcount] at h
      by_cases hne : m.first_id ≠ c
      · rw [if_pos hne] at h
        cases h
        simp only [Machine.countCase] at ht2
        rw [hcount] at ht2
        cases ht2
      · rw [if_neg hne] at h
        rcases stepSlots_timedout
            { m with state := State.Try 0, index := 0, start_index := env.small_random m.len }
            env r h ht2 with h1 | h1
        · simp at h1
        · obtain ⟨⟨cid, hcid⟩, _⟩ := h1
          simp at hcid
    · rw [if_neg hcount] at h
      exact stepSlots_timedout m env r h ht2

/-- `send` keeps the deadline and enters `TimedOut` only via the boundary. -/
theorem send_deadline_timedout {T : Type} (m : Machine) (env : Env) (tx : Sender) (msg : T)
    (r : Except T Unit × Machine × List Effect) (h : m.send env tx msg = Option.some r) :
    r.2.1.deadline = m.deadline ∧
      (r.2.1.state = State.TimedOut →
        m.state = State.TimedOut ∨
          ((∃ cid, m.state = State.Fulfill cid) ∧ 2 * m.len ≤ m.index ∧
            ∃ e, m.deadline = Option.some e ∧ e ≤ env.now)) := by
  unfold Machine.send at h
  split at h
  · cases h
  · rename_i m1 effs heq
    cases h
    exact ⟨step_deadline m env tx.case_id _ heq,
      fun ht2 => step_timedout m env tx.case_id _ heq ht2⟩
  · rename_i m1 effs heq
    have hd := step_deadline m env tx.case_id _ heq
    have ht := fun h2 => step_timedout m env tx.case_id (true, m1, effs) heq h2
    split at h <;> (try split at h) <;> (try split at h) <;> (try cases h) <;>
      exact ⟨hd, fun h2 => by first | exact ht h2 | simp at h2⟩

/-- `recv` keeps the deadline and enters `TimedOut` only via the boundary. -/
theorem recv_deadline_timedout {T : Type} (m : Machine) (env : Env) (rx : Receiver T)
    (r : Except Unit T × Machine × List Effect) (h : m.recv env rx = Option.some r) :
    r.2.1.deadline = m.deadline ∧
      (r.2.1.state = State.TimedOut →
        m.state = State.TimedOut ∨
          ((∃ cid, m.state = State.Fulfill cid) ∧ 2 * m.len ≤ m.index ∧
            ∃ e, m.deadline = Option.some e ∧ e ≤ env.now)) := by
  unfold Machine.recv at h
  split at h
  · cases h
  · rename_i m1 effs heq
    cases h
    exact ⟨step_deadline m env rx.case_id _ heq,
      fun ht2 => step_timedout m env rx.case_id _ heq ht2⟩
  · rename_i m1 effs heq
    have hd := step_deadline m env rx.case_id _ heq
    have ht := fun h2 => step_timedout m env rx.case_id (true, m1, effs) heq h2
    split at h <;> (try split at h) <;> (try split at h) <;> (try cases h) <;>
      exact ⟨hd, fun h2 => by first | exact ht h2 | simp at h2⟩

/-- `disconnected` keeps the deadline and enters `TimedOut` only via the boundary. -/
theorem disconnected_deadline_timedout (m : Machine) (env : Env)
    (r : Bool × Machine × List Effect) (h : m.disconnected env = Option.some r) :
    r.2.1.deadline = m.deadline ∧
      (r.2.1.state = State.TimedOut →
        m.state = State.TimedOut ∨
          ((∃ cid, m.state = State.Fulfill cid) ∧ 2 * m.len ≤ m.index ∧
            ∃ e, m.deadline = Option.some e ∧ e ≤ env.now)) := by
  unfold Machine.disconnected at h
  split at h
  · cases h
  · rename_i m1 effs heq
    cases h
    exact ⟨step_deadline m env CaseId.disconnected _ heq,
      fun ht2 => step_timedout m env CaseId.disconnected _ heq ht2⟩
  · rename_i m1 effs heq
    cases h
    exact ⟨step_deadline m env CaseId.disconnected (true, m1, effs) heq,
      fun ht2 => step_timedout m env CaseId.disconnected (true, m1, effs) heq ht2⟩

/-- `would_block` keeps the deadline and enters `TimedOut` only via the boundary. -/
theorem would_block_deadline_timedout (m : Machine) (env : Env)
    (r : Bool × Machine × List Effect) (h : m.would_block env = Option.some r) :
    r.2.1.deadline = m.deadline ∧
      (r.2.1.state = State.TimedOut →
        m.state = State.TimedOut ∨
          ((∃ cid, m.state = State.Fulfill cid) ∧ 2 * m.len ≤ m.index ∧
            ∃ e, m.deadline = Option.some e ∧ e ≤ env.now)) := by
  unfold Machine.would_block at h
  split at h
  · cases h
  · rename_i m1 effs heq
    cases h
    exact ⟨step_deadline m env CaseId.would_block _ heq,
      fun ht2 => step_timedout m env CaseId.would_block _ heq ht2⟩
  · rename_i m1 effs heq
    cases h
    exact ⟨step_deadline m env CaseId.would_block (true, m1, effs) heq,
      fun ht2 => step_timedout m env CaseId.would_block (true, m1, effs) heq ht2⟩

/-- `timed_out` keeps the deadline and enters `TimedOut` only via the boundary. -/
theorem timed_out_deadline_timedout (m : Machine) (env : Env)
    (r : Bool × Machine × List Effect) (h : m.timed_out env = Option.some r) :
    r.2.1.deadline = m.deadline ∧
      (r.2.1.state = State.TimedOut →
        m.state = State.TimedOut ∨
          ((∃ cid, m.state = State.Fulfill cid) ∧ 2 * m.len ≤ m.index ∧
            ∃ e, m.deadline = Option.some e ∧ e ≤ env.now)) := by
  unfold Machine.timed_out at h
  split at h
  · cases h
  · rename_i m1 effs heq
    cases h
    exact ⟨step_deadline m env CaseId.timed_out _ heq,
      fun ht2 => step_timedout m env CaseId.timed_out _ heq ht2⟩
  · rename_i m1 effs heq
    cases h
    exact ⟨step_deadline m env CaseId.timed_out (true, m1, effs) heq,
      fun ht2 => step_timedout m env CaseId.timed_out (true, m1, effs) heq ht2⟩

/-- With no deadline, a wrapped `send` cannot reach `TimedOut`. -/
theorem selectSend_deadline_timedout {T : Type} (m : Machine) (env : Env) (tx : Sender)
    (msg : T) (r : Except T Unit × Machine × List Effect)
    (h : selectSend m env tx msg = Option.some r)
    (hdl : m.deadline = Option.none) (hnt : ¬ m.state = State.TimedOut) :
    r.2.1.deadline = Option.none ∧ ¬ r.2.1.state = State.TimedOut := by
  unfold selectSend at h
  split at h
  · cases h
  · rename_i m1 effs heq
    cases h
    have := send_deadline_timedout m env tx msg _ heq
    exact ⟨by rw [← hdl]; exact this.1, by simp⟩
  · rename_i e m1 effs heq
    cases h
    have := send_deadline_timedout m env tx msg _ heq
    refine ⟨by rw [← hdl]; exact this.1, fun hts => ?_⟩
    rcases this.2 hts with h1 | h1
    · exact hnt h1
    · obtain ⟨_, _, e2, he2, _⟩ := h1
      rw [hdl] at he2
      cases he2

/-- With no deadline, a wrapped `recv` cannot reach `TimedOut`. -/
theorem selectRecv_deadline_timedout {T : Type} (m : Machine) (env : Env) (rx : Receiver T)
    (r : Except Unit T × Machine × List Effect)
    (h : selectRecv m env rx = Option.some r)
    (hdl : m.deadline = Option.none) (hnt : ¬ m.state = State.TimedOut) :
    r.2.1.deadline = Option.none ∧ ¬ r.2.1.state = State.TimedOut := by
  unfold selectRecv at h
  split at h
  · cases h
  · rename_i m1 effs heq
    cases h
    have := recv_deadline_timedout m env rx _ heq
    exact ⟨by rw [← hdl]; exact this.1, by simp⟩
  · rename_i e m1 effs heq
    cases h
    have := recv_deadline_timedout m env rx _ heq
    refine ⟨by rw [← hdl]; exact this.1, fun hts => ?_⟩
    rcases this.2 hts with h1 | h1
    · exact hnt h1
    · obtain ⟨_, _, e2, he2, _⟩ := h1
      rw [hdl] at he2
      cases he2

/-- With no deadline, a wrapped `disconnected` cannot reach `TimedOut`. -/
theorem selectDisconnected_deadline_timedout (m : Machine) (env : Env)
    (r : Bool × Machine × List Effect) (h : selectDisconnected m env = Option.some r)
    (hdl : m.deadline = Option.none) (hnt : ¬ m.state = State.TimedOut) :
    r.2.1.deadline = Option.none ∧ ¬ r.2.1.state = State.TimedOut := by
  unfold selectDisconnected at h
  split at h
  · cases h
  · rename_i b m1 effs heq
    have hop := disconnected_deadline_timedout m env _ heq
    split at h <;> cases h
    · exact ⟨by rw [← hdl]; exact hop.1, by simp⟩
    · refine ⟨by rw [← hdl]; exact hop.1, fun hts => ?_⟩
      rcases hop.2 hts with h1 | h1
      · exact hnt h1
      · obtain ⟨_, _, e2, he2, _⟩ := h1
        rw [hdl] at he2
        cases he2

/-- With no deadline, a wrapped `would_block` cannot reach `TimedOut`. -/
theorem selectWouldBlock_deadline_timedout (m : Machine) (env : Env)
    (r : Bool × Machine × List Effect) (h : selectWouldBlock m env = Option.some r)
    (hdl : m.deadline = Option.none) (hnt : ¬ m.state = State.TimedOut) :
    r.2.1.deadline = Option.none ∧ ¬ r.2.1.state = State.TimedOut := by
  unfold selectWouldBlock at h
  split at h
  · cases h
  · rename_i b m1 effs heq
    have hop := would_block_deadline_timedout m env _ heq
    split at h <;> cases h
    · exact ⟨by rw [← hdl]; exact hop.1, by simp⟩
    · refine ⟨by rw [← hdl]; exact hop.1, fun hts => ?_⟩
      rcases hop.2 hts with h1 | h1
      · exact hnt h1
      · obtain ⟨_, _, e2, he2, _⟩ := h1
        rw [hdl] at he2
        cases he2

/-- With no deadline, a wrapped `timed_out` cannot reach `TimedOut`. -/
theorem selectTimedOut_deadline_timedout (m : Machine) (env : Env)
    (r : Bool × Machine × List Effect) (h : selectTimedOut m env = Option.some r)
    (hdl : m.deadline = Option.none) (hnt : ¬ m.state = State.TimedOut) :
    r.2.1.deadline = Option.none ∧ ¬ r.2.1.state = State.TimedOut := by
  unfold selectTimedOut at h
  split at h
  · cases h
  · rename_i b m1 effs heq
    have hop := timed_out_deadline_timedout m env _ heq
    split at h <;> cases h
    · exact ⟨by rw [← hdl]; exact hop.1, by simp⟩
    · refine ⟨by rw [← hdl]; exact hop.1, fun hts => ?_⟩
      rcases hop.2 hts with h1 | h1
      · exact hnt h1
      · obtain ⟨_, _, e2, he2, _⟩ := h1
        rw [hdl] at he2
        cases he2

/-- With no deadline, one caller-loop iteration cannot reach `TimedOut`. -/
theorem execCall_no_timeout {T : Type} (m : Machine) (k : Case) (o : CallOracle T)
    (r : Bool × Machine × List Effect) (h : execCall m k o = Option.some r)
    (hdl : m.deadline = Option.none) (hnt : ¬ m.state = State.TimedOut) :
    r.2.1.deadline = Option.none ∧ ¬ r.2.1.state = State.TimedOut := by
  unfold execCall at h
  cases hk : k.kind <;> rw [hk] at h
  · rcases hsel : selectSend m o.env
        { case_id := k.id, try_send := o.try_send, is_disconnected := o.is_disconnected,
          can_send := o.can_send, fulfill_send_ok := o.fulfill_send_ok } o.msg with _ | ⟨e, m1, effs⟩
    · rw [hsel] at h
      cases h
    · rw [hsel] at h
      have := selectSend_deadline_timedout m o.env _ o.msg _ hsel hdl hnt
      cases e <;> (cases h; exact this)
  · rcases hsel : selectRecv m o.env
        { case_id := k.id, try_recv := o.try_recv, is_disconnected := o.is_disconnected,
          can_recv := o.can_recv, fulfill_recv := o.fulfill_recv } with _ | ⟨e, m1, effs⟩
    · rw [hsel] at h
      cases h
    · rw [hsel] at h
      have := selectRecv_deadline_timedout m o.env _ _ hsel hdl hnt
      cases e <;> (cases h; exact this)
  · exact selectDisconnected_deadline_timedout m o.env r h hdl hnt
  · exact selectWouldBlock_deadline_timedout m o.env r h hdl hnt
  · exact selectTimedOut_deadline_timedout m o.env r h hdl hnt

/-- With no deadline, no run of the caller loop reaches `TimedOut`. -/
theorem runCalls_no_timeout {T : Type} (cs : List Case) (o : Nat → CallOracle T) :
    ∀ (fuel : Nat) (m : Machine) (t : Nat), m.deadline = Option.none →
      ¬ m.state = State.TimedOut →
      (runCalls cs o m t fuel).1.deadline = Option.none ∧
        ¬ (runCalls cs o m t fuel).1.state = State.TimedOut := by
  intro fuel
  induction fuel with
  | zero =>
    intro m t h1 h2
    exact ⟨h1, h2⟩
  | succ n ih =>
    intro m t h1 h2
    rw [runCalls]
    split_ifs with hdead
    · exact ⟨h1, h2⟩
    · cases hexec : execCall m (cs.getD (t % cs.length) { id := CaseId.none, kind := OpKind.disc })
          (o t) with
      | none => exact ⟨h1, h2⟩
      | some r =>
        simp only
        have hr := execCall_no_timeout m _ (o t) r hexec h1 h2
        exact ih r.2.1 (t + 1) hr.1 hr.2

/-- Outside `TimedOut` and with no deadline, `timed_out()` answers false. -/
theorem timed_out_false (m : Machine) (env : Env)
    (hdl : m.deadline = Option.none) (hnt : ¬ m.state = State.TimedOut) :
    ∀ r, m.timed_out env = Option.some r → r.1 = false := by
  intro r h
  unfold Machine.timed_out at h
  split at h
  · cases h
  · rename_i m1 effs heq
    cases h
    rfl
  · rename_i m1 effs heq
    cases h
    simp only [decide_eq_false_iff_not]
    intro hts
    rcases step_timedout m env CaseId.timed_out _ heq hts with h1 | h1
    · exact hnt h1
    · obtain ⟨_, _, e, he, _⟩ := h1
      rw [hdl] at he
      cases he

/-- Concrete machine at the end of a `Fulfill` phase with an expired deadline. -/
def mC7 : Machine :=
  { state := State.Fulfill CaseId.abort
    index := 2
    start_index := 0
    first_id := CaseId.recvCase 0
    deadline := Option.some 0
    len := 1
    send_case_count := 0
    recv_case_count := 1
    has_disconnected_case := false
    has_would_block_case := false
    has_timed_out_case := false }

/-- C7: `TimedOut` is entered only at a `Fulfill`-to-`Try` phase boundary
(`index` has reached `2·len` in a `Fulfill` state) and only when the driver
was built with `deadline = some e` and `now ≥ e` is observed there;
consequently, with `deadline = none`, every caller-loop run keeps the
driver out of `TimedOut` and `timed_out()` never returns true. -/
theorem c7_timeout_only_at_fulfill_boundary :
    (∀ (m : Machine) (env : Env) (c : CaseId) (r : Bool × Machine × List Effect),
      m.step env c = Option.some r → r.2.1.state = State.TimedOut →
      m.state = State.TimedOut ∨
        ((∃ cid, m.state = State.Fulfill cid) ∧ 2 * m.len ≤ m.index ∧
          ∃ e, m.deadline = Option.some e ∧ e ≤ env.now))
    ∧ (∀ (T : Type) (cs : List Case) (o : Nat → CallOracle T) (t fuel : Nat),
        ¬ (runCalls cs o (Machine.with_deadline Option.none) t fuel).1.state
            = State.TimedOut ∧
        (∀ (env : Env) r,
          (runCalls cs o (Machine.with_deadline Option.none) t fuel).1.timed_out env
            = Option.some r → r.1 = false)) := by
  constructor
  · exact step_timedout
  · intro T cs o t fuel
    have h := runCalls_no_timeout cs o fuel (Machine.with_deadline Option.none) t rfl
      (by decide)
    exact ⟨h.2, fun env r hr => timed_out_false _ env h.1 h.2 r hr⟩

/-- Witness for C7 at `mC7`: the boundary step enters `TimedOut`. -/
theorem c7_timeout_only_at_fulfill_boundary_witness :
    mC7.step env0 (CaseId.recvCase 0)
      = Option.some (true, { mC7 with state := State.TimedOut, index := 1 }, []) ∧
    ({ mC7 with state := State.TimedOut, index := 1 } : Machine).state = State.TimedOut ∧
    (mC7.state = State.TimedOut ∨
      ((∃ cid, mC7.state = State.Fulfill cid) ∧ 2 * mC7.len ≤ mC7.index ∧
        ∃ e, mC7.deadline = Option.some e ∧ e ≤ env0.now)) :=
  ⟨by decide, rfl,
    c7_timeout_only_at_fulfill_boundary.1 mC7 env0 (CaseId.recvCase 0)
      (true, { mC7 with state := State.TimedOut, index := 1 }, []) (by decide) rfl⟩

/-- The identifier a declared case presents to the driver: real cases show
their own id, synthetic cases their reserved sentinel. -/
def effId (k : Case) : CaseId :=
  match k.kind with
  | OpKind.send => k.id
  | OpKind.recv => k.id
  | OpKind.disc => CaseId.disconnected
  | OpKind.wblock => CaseId.would_block
  | OpKind.tout => CaseId.timed_out

/-- A case list is well formed when every declared id matches the id the
driver actually sees (synthetic cases are labelled by their sentinel). -/
def WFCases (cs : List Case) : Prop := ∀ k ∈ cs, effId k = k.id

/-- Mark a machine dead (the wrapper commit transition). -/
def deadify (m : Machine) : Machine := { m with state := State.Dead }

/-- What a gate-passing call does after `step`: the commit flag, the machine
produced by the dispatcher arm plus the wrapper, and the effects the arm
itself appends. -/
def armResult {T : Type} (k : Case) (o : CallOracle T) (m1 : Machine) :
    Bool × Machine × List Effect :=
  match k.kind with
  | OpKind.send =>
    match m1.state with
    | State.Try dc =>
      match o.try_send with
      | TrySendRes.ok => (true, deadify m1, [])
      | TrySendRes.full => (false, m1, [])
      | TrySendRes.disconnected => (false, { m1 with state := State.Try (dc + 1) }, [])
    | State.Promise dc =>
      if o.is_disconnected then
        (false, { m1 with state := State.Promise (dc + 1) }, [Effect.promise_send k.id])
      else if o.can_send then
        (false, m1, [Effect.promise_send k.id, Effect.try_select CaseId.abort])
      else
        (false, m1, [Effect.promise_send k.id])
    | State.Revoke w =>
      if k.id ≠ w then (false, m1, [Effect.revoke_send k.id]) else (false, m1, [])
    | State.Fulfill w =>
      if k.id = w then
        if o.fulfill_send_ok then (true, deadify m1, [Effect.fulfill_send k.id])
        else (false, m1, [Effect.fulfill_send k.id])
      else (false, m1, [])
    | _ => (false, m1, [])
  | OpKind.recv =>
    match m1.state with
    | State.Try dc =>
      match o.try_recv with
      | TryRecvRes.ok _ => (true, deadify m1, [])
      | TryRecvRes.empty => (false, m1, [])
      | TryRecvRes.disconnected => (false, { m1 with state := State.Try (dc + 1) }, [])
    | State.Promise dc =>
      if o.is_disconnected ∧ ¬ o.can_recv then
        (false, { m1 with state := State.Promise (dc + 1) }, [Effect.promise_recv k.id])
      else if o.can_recv then
        (false, m1, [Effect.promise_recv k.id, Effect.try_select CaseId.abort])
      else
        (false, m1, [Effect.promise_recv k.id])
    | State.Revoke w =>
      if k.id ≠ w then (false, m1, [Effect.revoke_recv k.id]) else (false, m1, [])
    | State.Fulfill w =>
      if k.id = w then
        match o.fulfill_recv with
        | Option.some _ => (true, deadify m1, [Effect.fulfill_recv k.id])
        | Option.none => (false, m1, [Effect.fulfill_recv k.id])
      else (false, m1, [])
    | _ => (false, m1, [])
  | OpKind.disc =>
    if m1.state = State.Disconnected then (true, deadify m1, []) else (false, m1, [])
  | OpKind.wblock =>
    if m1.state = State.WouldBlock then (true, deadify m1, []) else (false, m1, [])
  | OpKind.tout =>
    if m1.state = State.TimedOut then (true, deadify m1, []) else (false, m1, [])

/-- One caller-loop iteration is `step` followed by the dispatcher arm:
if the gate denies, nothing but the step effects happen; if it passes, the
arm contributes its commit flag, machine, and appended effects. -/
theorem execCall_eq {T : Type} (m : Machine) (k : Case) (o : CallOracle T)
    (g : Bool) (m1 : Machine) (effsT : List Effect)
    (hstep : m.step o.env (effId k) = Option.some (g, m1, effsT))
    (hnd : ¬ m1.state = State.Dead) :
    execCall m k o = Option.some
      (if g then
        ((armResult k o m1).1, (armResult k o m1).2.1, effsT ++ (armResult k o m1).2.2)
      else (false, m1, effsT)) := by
  obtain ⟨st1, idx1, si1, fi1, dl1, ln1, sc1, rc1, hd1, hw1, ht1⟩ := m1
  simp only at hnd
  cases hk : k.kind <;>
    simp only [execCall, selectSend, selectRecv, selectDisconnected, selectWouldBlock,
      selectTimedOut, Machine.send, Machine.recv, Machine.disconnected, Machine.would_block,
      Machine.timed_out, hk] <;>
    rw [show effId k = (match k.kind with
      | OpKind.send => k.id
      | OpKind.recv => k.id
      | OpKind.disc => CaseId.disconnected
      | OpKind.wblock => CaseId.would_block
      | OpKind.tout => CaseId.timed_out) from rfl] at hstep <;>
    rw [hk] at hstep <;>
    rw [hstep] <;>
    cases g <;>
      simp only [armResult, deadify, hk] <;>
      cases st1 <;>
        first
          | rfl
          | ((cases o.try_send <;> (first | rfl | simp_all)) <;> done)
          | ((cases o.try_recv <;> (first | rfl | simp_all)) <;> done)
          | ((rename_i w; by_cases hw2 : k.id = w <;> (try cases o.fulfill_send_ok) <;>
              (try cases o.fulfill_recv) <;> (first | rfl | simp_all)) <;> done)
          | ((split_ifs <;> (try cases o.fulfill_recv) <;> (first | rfl | simp_all)) <;> done)
          | (simp_all <;> done)

/-- Whether an operation kind performs channel registration (send/recv). -/
def realKind : OpKind → Bool
  | OpKind.send => true
  | OpKind.recv => true
  | _ => false

/-- Default case used when indexing the caller's list. -/
def dfltCase : Case := { id := CaseId.none, kind := OpKind.disc }

/-- The unique virtual slot in `[start, start + n)` that visits position `p`. -/
def slotOf (start n p : Nat) : Nat := if start ≤ p then p else p + n

/-- First position of a real case carrying identifier `c`. -/
def posOf (c : CaseId) : List Case → Option Nat
  | [] => Option.none
  | k :: r =>
    if k.id = c ∧ realKind k.kind = true then Option.some 0
    else (posOf c r).map (· + 1)

theorem slotOf_bounds (start n p : Nat) (hs : start < n) (hp : p < n) :
    start ≤ slotOf start n p ∧ slotOf start n p < start + n := by
  unfold slotOf
  split_ifs <;> omega

theorem slotOf_mod (start n p : Nat) (hp : p < n) : slotOf start n p % n = p := by
  unfold slotOf
  split_ifs
  · exact Nat.mod_eq_of_lt hp
  · rw [Nat.add_mod_right]
    exact Nat.mod_eq_of_lt hp

theorem slotOf_inj (start n p1 p2 : Nat) (h1 : p1 < n) (h2 : p2 < n)
    (he : slotOf start n p1 = slotOf start n p2) : p1 = p2 := by
  have := slotOf_mod start n p1 h1
  have := slotOf_mod start n p2 h2
  rw [← slotOf_mod start n p1 h1, ← slotOf_mod start n p2 h2, he]

theorem gate_slot (start n j : Nat) (hs : start < n) (hj : j < 2 * n) :
    visitGate start n j = true ↔ slotOf start n (j % n) = j := by
  unfold visitGate slotOf
  simp only [decide_eq_true_eq]
  by_cases hlt : j < n
  · rw [Nat.mod_eq_of_lt hlt]
    split_ifs <;> omega
  · have hmod : j % n = j - n := by
      have : j - n < n := by omega
      conv_lhs => rw [show j = (j - n) + n by omega]
      rw [Nat.add_mod_right]
      exact Nat.mod_eq_of_lt this
    rw [hmod]
    split_ifs <;> omega

theorem posOf_spec (c : CaseId) :
    ∀ (cs : List Case) (p : Nat), posOf c cs = Option.some p →
      p < cs.length ∧ (cs.getD p dfltCase).id = c ∧ realKind (cs.getD p dfltCase).kind = true := by
  intro cs
  induction cs with
  | nil => intro p h; cases h
  | cons k r ih =>
    intro p h
    unfold posOf at h
    split_ifs at h with hk
    · cases h
      exact ⟨by simp, hk.1, hk.2⟩
    · cases hrec : posOf c r with
      | none => rw [hrec] at h; cases h
      | some q =>
        rw [hrec] at h
        cases h
        have := ih q hrec
        exact ⟨by simp; omega, this.2.1, this.2.2⟩

theorem getD_id_mem (cs : List Case) (p : Nat) (hp : p < cs.length) :
    (cs.getD p dfltCase).id ∈ cs.map Case.id := by
  rw [List.getD_eq_getElem cs dfltCase hp]
  exact List.mem_map_of_mem Case.id (List.getElem_mem hp)

theorem posOf_complete (c : CaseId) :
    ∀ (cs : List Case), (cs.map Case.id).Nodup →
      ∀ p, p < cs.length → (cs.getD p dfltCase).id = c →
        realKind (cs.getD p dfltCase).kind = true → posOf c cs = Option.some p := by
  intro cs
  induction cs with
  | nil => intro _ p hp; simp at hp
  | cons k r ih =>
    intro hnodup p hp hid hreal
    unfold posOf
    cases p with
    | zero =>
      simp only [List.getD] at hid hreal
      rw [if_pos ⟨hid, hreal⟩]
    | succ q =>
      have hq : q < r.length := by simp at hp; omega
      have hid2 : (r.getD q dfltCase).id = c := hid
      have hreal2 : realKind (r.getD q dfltCase).kind = true := hreal
      have hnd2 : (r.map Case.id).Nodup := (List.nodup_cons.mp hnodup).2
      have hnotmem : k.id ∉ r.map Case.id := (List.nodup_cons.mp hnodup).1
      rw [if_neg, ih hnd2 q hq hid2 hreal2]
      · rfl
      · rintro ⟨hk1, _⟩
        exact hnotmem (by rw [hk1, ← hid2]; exact getD_id_mem r q hq)

theorem id_pos_unique (cs : List Case) (hnodup : (cs.map Case.id).Nodup)
    (p1 p2 : Nat) (h1 : p1 < cs.length) (h2 : p2 < cs.length)
    (he : (cs.getD p1 dfltCase).id = (cs.getD p2 dfltCase).id) : p1 = p2 := by
  rw [List.getD_eq_getElem cs dfltCase h1, List.getD_eq_getElem cs dfltCase h2] at he
  have hl1 : p1 < (cs.map Case.id).length := by simpa
  have hl2 : p2 < (cs.map Case.id).length := by simpa
  have e1 : (cs.map Case.id)[p1] = (cs[p1]).id := List.getElem_map Case.id
  have e2 : (cs.map Case.id)[p2] = (cs[p2]).id := List.getElem_map Case.id
  exact (List.Nodup.getElem_inj_iff hnodup).mp (e1.trans (he.trans e2.symm))

/-- Whether case `c` has an outstanding channel registration, as a function
of the driver state: during `Promise` the already-visited real cases,
during `Revoke` the not-yet-revoked ones plus the winner, during `Fulfill`
the winner while unvisited; nothing anywhere else. -/
def pendingB (cs : List Case) (m : Machine) (c : CaseId) : Bool :=
  match posOf c cs with
  | Option.none => false
  | Option.some p =>
    match m.state with
    | State.Promise _ => decide (slotOf m.start_index cs.length p < m.index)
    | State.Revoke w => decide (c = w ∨ m.index ≤ slotOf m.start_index cs.length p)
    | State.Fulfill w => decide (c = w ∧ m.index ≤ slotOf m.start_index cs.length p)
    | _ => false

/-- The run invariant tying the machine to the caller's position: during
`Count` the counter tracks the prefix counted so far; in the phase loop the
slot counter is aligned with the caller's cyclic position. -/
def CIInv (cs : List Case) (m : Machine) (t : Nat) : Prop :=
  match m.state with
  | State.Count =>
      m.len ≤ cs.length ∧ t % cs.length = m.len % cs.length ∧
      (m.len = 0 → m.first_id = CaseId.none) ∧
      (1 ≤ m.len → m.first_id = (cs.getD 0 dfltCase).id)
  | State.Dead => True
  | _ =>
      m.len = cs.length ∧ m.start_index < cs.length ∧
      1 ≤ m.index ∧ m.index ≤ 2 * cs.length ∧
      t % cs.length = (m.index % (2 * cs.length)) % cs.length

theorem step_loop_lt (m : Machine) (env : Env) (c : CaseId)
    (hnd : ¬ m.state = State.Dead) (hnc : ¬ m.state = State.Count)
    (hidx : m.index < 2 * m.len) :
    m.step env c = Option.some
      (visitGate m.start_index m.len m.index, { m with index := m.index + 1 }, []) := by
  rw [Machine.step, if_neg hnd, if_neg hnc, Machine.stepSlots, if_neg (by omega)]

theorem step_loop_boundary (m : Machine) (env : Env) (c : CaseId) (m2 : Machine)
    (effsT : List Effect)
    (hnd : ¬ m.state = State.Dead) (hnc : ¬ m.state = State.Count)
    (hidx : 2 * m.len ≤ m.index) (htr : m.transition env = Option.some (m2, effsT)) :
    m.step env c = Option.some
      (visitGate m2.start_index m2.len 0, { m2 with index := 1 }, effsT) := by
  rw [Machine.step, if_neg hnd, if_neg hnc, Machine.stepSlots, if_pos hidx, htr]

theorem transition_try_eq (m : Machine) (env : Env) (dc : Nat)
    (hst : m.state = State.Try dc) :
    m.transition env =
      if m.has_disconnected_case = true ∧ m.send_case_count + m.recv_case_count = dc then
        Option.some ({ m with state := State.Disconnected }, [])
      else if m.has_would_block_case = true then
        Option.some ({ m with state := State.WouldBlock }, [])
      else
        Option.some ({ m with state := State.Promise 0 }, [Effect.reset]) := by
  simp only [Machine.transition, hst]

theorem transition_promise_eq (m : Machine) (env : Env) (dc : Nat)
    (hst : m.state = State.Promise dc) :
    m.transition env = Option.some ({ m with state := State.Revoke env.selected },
      if m.has_disconnected_case = true ∧ m.send_case_count + m.recv_case_count = dc then
        [Effect.try_select CaseId.abort]
      else [Effect.wait_until m.deadline]) := by
  simp only [Machine.transition, hst]

theorem transition_revoke_eq (m : Machine) (env : Env) (w : CaseId)
    (hst : m.state = State.Revoke w) :
    m.transition env = Option.some ({ m with state := State.Fulfill w }, []) := by
  simp only [Machine.transition, hst]

theorem transition_fulfill_eq (m : Machine) (env : Env) (w : CaseId)
    (hst : m.state = State.Fulfill w) :
    m.transition env = Option.some
      (if (∃ e, m.deadline = Option.some e ∧ e ≤ env.now) then
        { m with state := State.TimedOut }
      else { m with state := State.Try 0 }, []) := by
  simp only [Machine.transition, hst]
  cases hdl : m.deadline with
  | none => simp [hdl]
  | some e =>
    by_cases he : e ≤ env.now
    · simp [hdl, he]
    · dsimp only
      rw [if_neg he, if_neg]
      rintro ⟨x, hx, hx2⟩
      cases hx
      exact he hx2

theorem transition_terminal_eq (m : Machine) (env : Env)
    (hst : m.state = State.Disconnected ∨ m.state = State.WouldBlock ∨
      m.state = State.TimedOut) :
    m.transition env = Option.some (m, []) := by
  rcases hst with h | h | h <;> simp [Machine.transition, h]

theorem regEvents_nil (c : CaseId) : regEvents [] c = [] := rfl

theorem regEvents_append (tr1 tr2 : List Effect) (c : CaseId) :
    regEvents (tr1 ++ tr2) c = regEvents tr1 c ++ regEvents tr2 c :=
  List.filterMap_append tr1 tr2 (regEvent c)

theorem balFold_nil (b : Bool) : balFold b [] = Option.some b := by
  cases b <;> rfl

theorem balFold_append (b : Bool) (x y : List RegEvent) :
    balFold b (x ++ y) = (balFold b x).bind (fun b2 => balFold b2 y) := by
  induction x generalizing b with
  | nil => cases b <;> rfl
  | cons e r ih =>
    cases b <;> cases e <;> simp [balFold, ih]

theorem pendingB_false (cs : List Case) (m : Machine) (c : CaseId)
    (h : m.state = State.Count ∨ m.state = State.Dead ∨ (∃ dc, m.state = State.Try dc) ∨
      m.state = State.Disconnected ∨ m.state = State.WouldBlock ∨ m.state = State.TimedOut) :
    pendingB cs m c = false := by
  unfold pendingB
  cases hp : posOf c cs with
  | none => rfl
  | some p =>
    rcases h with h | h | ⟨dc, h⟩ | h | h | h <;> simp [h]

theorem effId_getD (cs : List Case) (hwf : WFCases cs) (p : Nat) (hp : p < cs.length) :
    effId (cs.getD p dfltCase) = (cs.getD p dfltCase).id := by
  apply hwf
  rw [List.getD_eq_getElem cs dfltCase hp]
  exact List.getElem_mem hp

theorem mod_succ_mod (t n : Nat) (hn : 0 < n) : (t + 1) % n = ((t % n) + 1) % n := by
  conv_lhs => rw [show t = n * (t / n) + t % n from (Nat.div_add_mod t n).symm]
  rw [Nat.add_assoc, Nat.mul_comm, Nat.add_comm, Nat.add_mul_mod_self_right]

theorem call_count_a {T : Type} (cs : List Case) (oc : CallOracle T) (m : Machine) (t : Nat)
    (hnodup : (cs.map Case.id).Nodup) (hnone : CaseId.none ∉ cs.map Case.id)
    (hwf : WFCases cs)
    (hst : m.state = State.Count) (hlen : m.len < cs.length)
    (hInv : CIInv cs m t) :
    execCall m (cs.getD (t % cs.length) dfltCase) oc
      = Option.some (false, m.countCase (cs.getD (t % cs.length) dfltCase).id, []) ∧
    CIInv cs (m.countCase (cs.getD (t % cs.length) dfltCase).id) (t + 1) ∧
    (∀ c, balFold (pendingB cs m c) (regEvents [] c)
      = Option.some (pendingB cs (m.countCase (cs.getD (t % cs.length) dfltCase).id) c)) := by
  have hn : 0 < cs.length := by omega
  unfold CIInv at hInv
  rw [hst] at hInv
  obtain ⟨hle, halign, hfi0, hfi1⟩ := hInv
  have hp : t % cs.length = m.len := by
    rw [halign, Nat.mod_eq_of_lt hlen]
  have hplt : t % cs.length < cs.length := by omega
  set k := cs.getD (t % cs.length) dfltCase with hk
  have hkid : k.id ∈ cs.map Case.id := getD_id_mem cs _ hplt
  have heff : effId k = k.id := effId_getD cs hwf _ hplt
  have hne2 : m.first_id ≠ effId k := by
    rw [heff]
    rcases Nat.eq_zero_or_pos m.len with hz | hpos
    · rw [hfi0 hz]
      intro hcontra
      exact hnone (by rw [hcontra]; exact hkid)
    · rw [hfi1 hpos]
      intro hcontra
      have := id_pos_unique cs hnodup 0 (t % cs.length) hn hplt hcontra
      omega
  have hstep : m.step oc.env (effId k) = Option.some (false, m.countCase (effId k), []) := by
    rw [Machine.step, if_neg (by rw [hst]; simp), if_pos hst, if_pos hne2]
  have hexec := execCall_eq m k oc false (m.countCase (effId k)) [] hstep
    (by simp [Machine.countCase, hst])
  rw [if_neg (by simp)] at hexec
  rw [heff] at hexec
  refine ⟨hexec, ?_, ?_⟩
  · unfold CIInv
    have hcstate : (m.countCase k.id).state = State.Count := by
      simp [Machine.countCase, hst]
    rw [hcstate]
    refine ⟨by simp [Machine.countCase]; omega, ?_, ?_, ?_⟩
    · show (t + 1) % cs.length = (m.countCase k.id).len % cs.length
      have hclen : (m.countCase k.id).len = m.len + 1 := rfl
      rw [hclen, mod_succ_mod t cs.length hn, hp]
    · intro hz
      have hclen : (m.countCase k.id).len = m.len + 1 := rfl
      omega
    · intro _
      show (if m.len = 0 then k.id else m.first_id) = (cs.getD 0 dfltCase).id
      rcases Nat.eq_zero_or_pos m.len with hz | hpos
      · rw [if_pos hz, hk]
        rw [hp, hz]
      · rw [if_neg (by omega)]
        exact hfi1 hpos
  · intro c
    rw [pendingB_false cs m c (Or.inl hst),
      pendingB_false cs _ c (Or.inl (by simp [Machine.countCase, hst]))]
    rfl

theorem armResult_try {T : Type} (k : Case) (o : CallOracle T) (m1 : Machine) (dc : Nat)
    (hst : m1.state = State.Try dc) :
    ((∃ dc2, (armResult k o m1).2.1.state = State.Try dc2) ∨
      (armResult k o m1).2.1.state = State.Dead)
    ∧ (armResult k o m1).2.2 = []
    ∧ (armResult k o m1).2.1.index = m1.index
    ∧ (armResult k o m1).2.1.len = m1.len
    ∧ (armResult k o m1).2.1.start_index = m1.start_index := by
  cases hk : k.kind <;>
    simp only [armResult, hk, hst, deadify] <;>
    first
      | (cases o.try_send <;> simp [hst])
      | (cases o.try_recv <;> simp [hst])
      | (split_ifs <;> simp [hst])

theorem armResult_terminal {T : Type} (k : Case) (o : CallOracle T) (m1 : Machine)
    (hst : m1.state = State.Disconnected ∨ m1.state = State.WouldBlock ∨
      m1.state = State.TimedOut) :
    ((armResult k o m1).2.1.state = m1.state ∨ (armResult k o m1).2.1.state = State.Dead)
    ∧ (armResult k o m1).2.2 = []
    ∧ (armResult k o m1).2.1.index = m1.index
    ∧ (armResult k o m1).2.1.len = m1.len
    ∧ (armResult k o m1).2.1.start_index = m1.start_index := by
  rcases hst with h | h | h <;>
    cases hk : k.kind <;>
      simp only [armResult, hk, h, deadify] <;>
      first
        | (cases o.try_send <;> simp [h])
        | (cases o.try_recv <;> simp [h])
        | (split_ifs <;> simp [h])
        | simp [h]

theorem armResult_promise_real {T : Type} (k : Case) (o : CallOracle T) (m1 : Machine)
    (dc : Nat) (hst : m1.state = State.Promise dc) (hreal : realKind k.kind = true) :
    (∃ dc2, (armResult k o m1).2.1.state = State.Promise dc2)
    ∧ (armResult k o m1).1 = false
    ∧ (armResult k o m1).2.1.index = m1.index
    ∧ (armResult k o m1).2.1.len = m1.len
    ∧ (armResult k o m1).2.1.start_index = m1.start_index
    ∧ (∀ c, regEvents (armResult k o m1).2.2 c
        = if k.id = c then [RegEvent.promise] else []) := by
  cases hk : k.kind <;> simp [realKind, hk] at hreal <;>
    simp only [armResult, hk, hst] <;>
    split_ifs <;>
      refine ⟨by first | exact ⟨dc + 1, rfl⟩ | exact ⟨dc, hst⟩, rfl, rfl, rfl, rfl,
          fun c => ?_⟩ <;>
        simp only [regEvents, regEvent, List.filterMap] <;>
        split_ifs <;> rfl

theorem armResult_promise_synth {T : Type} (k : Case) (o : CallOracle T) (m1 : Machine)
    (dc : Nat) (hst : m1.state = State.Promise dc) (hreal : realKind k.kind = false) :
    armResult k o m1 = (false, m1, []) := by
  cases hk : k.kind <;> simp [realKind, hk] at hreal <;>
    simp [armResult, hk, hst]

theorem armResult_revoke_real {T : Type} (k : Case) (o : CallOracle T) (m1 : Machine)
    (w : CaseId) (hst : m1.state = State.Revoke w) (hreal : realKind k.kind = true) :
    (armResult k o m1).2.1 = m1
    ∧ (armResult k o m1).1 = false
    ∧ (∀ c, regEvents (armResult k o m1).2.2 c
        = if k.id ≠ w ∧ k.id = c then [RegEvent.settle] else []) := by
  cases hk : k.kind <;> simp [realKind, hk] at hreal <;>
    simp only [armResult, hk, hst] <;>
    split_ifs with hw <;>
      refine ⟨rfl, rfl, fun c => ?_⟩ <;>
        simp only [regEvents, regEvent, List.filterMap] <;>
        split_ifs <;> simp_all

theorem armResult_revoke_synth {T : Type} (k : Case) (o : CallOracle T) (m1 : Machine)
    (w : CaseId) (hst : m1.state = State.Revoke w) (hreal : realKind k.kind = false) :
    armResult k o m1 = (false, m1, []) := by
  cases hk : k.kind <;> simp [realKind, hk] at hreal <;>
    simp [armResult, hk, hst]

theorem armResult_fulfill_real {T : Type} (k : Case) (o : CallOracle T) (m1 : Machine)
    (w : CaseId) (hst : m1.state = State.Fulfill w) (hreal : realKind k.kind = true) :
    ((armResult k o m1).2.1.state = State.Fulfill w ∨
      (armResult k o m1).2.1.state = State.Dead)
    ∧ (armResult k o m1).2.1.index = m1.index
    ∧ (armResult k o m1).2.1.len = m1.len
    ∧ (armResult k o m1).2.1.start_index = m1.start_index
    ∧ ((armResult k o m1).2.1.state = State.Dead → k.id = w)
    ∧ (∀ c, regEvents (armResult k o m1).2.2 c
        = if k.id = w ∧ k.id = c then [RegEvent.settle] else []) := by
  have hnd1 : ¬ m1.state = State.Dead := by rw [hst]; simp
  cases hk : k.kind <;> simp [realKind, hk] at hreal
  case send =>
    simp only [armResult, hk, hst]
    by_cases hw : k.id = w
    · rw [if_pos hw]
      by_cases hko : o.fulfill_send_ok = true
      · rw [if_pos hko]
        refine ⟨Or.inr rfl, rfl, rfl, rfl, fun _ => hw, fun c => ?_⟩
        simp only [regEvents, regEvent, List.filterMap]
        split_ifs with hx1 hx2 hx3
        · rfl
        · exact absurd ⟨hw, hx1⟩ hx2
        · exact absurd hx3.2 hx1
        · rfl
      · rw [if_neg hko]
        refine ⟨Or.inl hst, rfl, rfl, rfl, fun hx => absurd hx hnd1, fun c => ?_⟩
        simp only [regEvents, regEvent, List.filterMap]
        split_ifs with hx1 hx2 hx3
        · rfl
        · exact absurd ⟨hw, hx1⟩ hx2
        · exact absurd hx3.2 hx1
        · rfl
    · rw [if_neg hw]
      refine ⟨Or.inl hst, rfl, rfl, rfl, fun hx => absurd hx hnd1, fun c => ?_⟩
      simp only [regEvents, regEvent, List.filterMap]
      split_ifs with hy
      · exact absurd hy.1 hw
      · rfl
  case recv =>
    simp only [armResult, hk, hst]
    by_cases hw : k.id = w
    · rw [if_pos hw]
      cases hfr : o.fulfill_recv with
      | some v =>
        refine ⟨Or.inr rfl, rfl, rfl, rfl, fun _ => hw, fun c => ?_⟩
        simp only [regEvents, regEvent, List.filterMap]
        split_ifs with hx1 hx2 hx3
        · rfl
        · exact absurd ⟨hw, hx1⟩ hx2
        · exact absurd hx3.2 hx1
        · rfl
      | none =>
        refine ⟨Or.inl hst, rfl, rfl, rfl, fun hx => absurd hx hnd1, fun c => ?_⟩
        simp only [regEvents, regEvent, List.filterMap]
        split_ifs with hx1 hx2 hx3
        · rfl
        · exact absurd ⟨hw, hx1⟩ hx2
        · exact absurd hx3.2 hx1
        · rfl
    · rw [if_neg hw]
      refine ⟨Or.inl hst, rfl, rfl, rfl, fun hx => absurd hx hnd1, fun c => ?_⟩
      simp only [regEvents, regEvent, List.filterMap]
      split_ifs with hy
      · exact absurd hy.1 hw
      · rfl

theorem armResult_fulfill_synth {T : Type} (k : Case) (o : CallOracle T) (m1 : Machine)
    (w : CaseId) (hst : m1.state = State.Fulfill w) (hreal : realKind k.kind = false) :
    armResult k o m1 = (false, m1, []) := by
  cases hk : k.kind <;> simp [realKind, hk] at hreal <;>
    simp [armResult, hk, hst]

theorem CIInv_of_fields (cs : List Case) (m : Machine) (t : Nat)
    (hnotc : ¬ m.state = State.Count) (hnotd : ¬ m.state = State.Dead)
    (h1 : m.len = cs.length) (h2 : m.start_index < cs.length)
    (h3 : 1 ≤ m.index) (h4 : m.index ≤ 2 * cs.length)
    (h5 : t % cs.length = (m.index % (2 * cs.length)) % cs.length) :
    CIInv cs m t := by
  unfold CIInv
  split
  · exact absurd (by assumption) hnotc
  · trivial
  · exact ⟨h1, h2, h3, h4, h5⟩

theorem CIInv_dead (cs : List Case) (m : Machine) (t : Nat)
    (h : m.state = State.Dead) : CIInv cs m t := by
  unfold CIInv
  split <;> simp_all

theorem CIInv_loop_fields (cs : List Case) (m : Machine) (t : Nat)
    (hnotc : ¬ m.state = State.Count) (hnotd : ¬ m.state = State.Dead)
    (hInv : CIInv cs m t) :
    m.len = cs.length ∧ m.start_index < cs.length ∧
      1 ≤ m.index ∧ m.index ≤ 2 * cs.length ∧
      t % cs.length = (m.index % (2 * cs.length)) % cs.length := by
  unfold CIInv at hInv
  split at hInv
  · exact absurd (by assumption) hnotc
  · exact absurd (by assumption) hnotd
  · exact hInv

theorem pendingB_promise (cs : List Case) (m : Machine) (c : CaseId) (dc : Nat)
    (h : m.state = State.Promise dc) :
    pendingB cs m c = (match posOf c cs with
      | Option.none => false
      | Option.some p => decide (slotOf m.start_index cs.length p < m.index)) := by
  unfold pendingB
  cases hp : posOf c cs <;> simp [hp, h]

theorem pendingB_revoke (cs : List Case) (m : Machine) (c : CaseId) (w : CaseId)
    (h : m.state = State.Revoke w) :
    pendingB cs m c = (match posOf c cs with
      | Option.none => false
      | Option.some p => decide (c = w ∨ m.index ≤ slotOf m.start_index cs.length p)) := by
  unfold pendingB
  cases hp : posOf c cs <;> simp [hp, h]

theorem pendingB_fulfill (cs : List Case) (m : Machine) (c : CaseId) (w : CaseId)
    (h : m.state = State.Fulfill w) :
    pendingB cs m c = (match posOf c cs with
      | Option.none => false
      | Option.some p => decide (c = w ∧ m.index ≤ slotOf m.start_index cs.length p)) := by
  unfold pendingB
  cases hp : posOf c cs <;> simp [hp, h]

theorem call_count_b {T : Type} (cs : List Case) (oc : CallOracle T) (m : Machine) (t : Nat)
    (hne : cs ≠ []) (hwf : WFCases cs)
    (hrand : oc.env.small_random cs.length < cs.length)
    (hst : m.state = State.Count) (hlen : m.len = cs.length)
    (hInv : CIInv cs m t) :
    ∃ r, execCall m (cs.getD (t % cs.length) dfltCase) oc = Option.some r ∧
      CIInv cs r.2.1 (t + 1) ∧
      (∀ c, balFold (pendingB cs m c) (regEvents r.2.2 c)
        = Option.some (pendingB cs r.2.1 c)) := by
  have hn : 0 < cs.length := List.length_pos.mpr hne
  unfold CIInv at hInv
  rw [hst] at hInv
  obtain ⟨hle, halign, hfi0, hfi1⟩ := hInv
  have hp : t % cs.length = 0 := by
    rw [halign, hlen, Nat.mod_self]
  rw [hp]
  set k := cs.getD 0 dfltCase with hk
  have heff : effId k = k.id := effId_getD cs hwf 0 hn
  have hfi : m.first_id = k.id := hfi1 (by omega)
  set s := oc.env.small_random m.len with hs
  set mT : Machine :=
    { m with state := State.Try 0, index := 0 + 1, start_index := s } with hmT
  have hstep : m.step oc.env (effId k) = Option.some (visitGate s m.len 0, mT, []) := by
    rw [Machine.step, if_neg (by rw [hst]; simp), if_pos hst,
      if_neg (by rw [heff, hfi]; simp), Machine.stepSlots]
    simp only
    rw [if_neg (by simp; omega)]
  have hsn : s < cs.length := by rw [hs, hlen]; exact hrand
  have hmTstate : mT.state = State.Try 0 := rfl
  have hmtnd : ¬ mT.state = State.Dead := by rw [hmTstate]; simp
  have hexec := execCall_eq m k oc (visitGate s m.len 0) mT [] hstep hmtnd
  have hInvT : ∀ m2 : Machine, (∃ dc2, m2.state = State.Try dc2) ∨ m2.state = State.Dead →
      m2.index = 1 → m2.len = m.len → m2.start_index = s → CIInv cs m2 (t + 1) := by
    intro m2 hst2 hi2 hl2 hsi2
    rcases hst2 with ⟨dc2, hst2⟩ | hst2
    · refine CIInv_of_fields cs m2 (t + 1) (by rw [hst2]; simp) (by rw [hst2]; simp)
        (by omega) (by omega) (by omega) (by omega) ?_
      rw [hi2, mod_succ_mod t cs.length hn, hp]
      have h2n : (1 : Nat) % (2 * cs.length) = 1 := Nat.mod_eq_of_lt (by omega)
      rw [h2n]
    · exact CIInv_dead cs m2 (t + 1) hst2
  cases hg : visitGate s m.len 0 with
  | false =>
    rw [hg, if_neg (by simp)] at hexec
    refine ⟨(false, mT, []), hexec, hInvT mT (Or.inl ⟨0, rfl⟩) rfl rfl rfl, fun c => ?_⟩
    rw [pendingB_false cs m c (Or.inl hst),
      pendingB_false cs mT c (Or.inr (Or.inr (Or.inl ⟨0, rfl⟩)))]
    rfl
  | true =>
    rw [hg, if_pos rfl] at hexec
    have harm := armResult_try k oc mT 0 hmTstate
    refine ⟨_, hexec, ?_, fun c => ?_⟩
    · rcases harm.1 with ⟨dc2, hdc2⟩ | hdead
      · exact hInvT _ (Or.inl ⟨dc2, hdc2⟩) harm.2.2.1 harm.2.2.2.1 harm.2.2.2.2
      · exact CIInv_dead cs _ (t + 1) hdead
    · rw [pendingB_false cs m c (Or.inl hst), harm.2.1]
      have hpend2 : pendingB cs (armResult k oc mT).2.1 c = false := by
        rcases harm.1 with ⟨dc2, hdc2⟩ | hdead
        · exact pendingB_false cs _ c (Or.inr (Or.inr (Or.inl ⟨dc2, hdc2⟩)))
        · exact pendingB_false cs _ c (Or.inr (Or.inl hdead))
      rw [hpend2]
      rfl

theorem pendingB_step_noslot (cs : List Case) (ma mb : Machine) (c : CaseId)
    (hs : mb.state = ma.state) (hst : mb.start_index = ma.start_index)
    (hi : mb.index = ma.index + 1)
    (hnoslot : ∀ pc, posOf c cs = Option.some pc →
      slotOf ma.start_index cs.length pc ≠ ma.index) :
    pendingB cs mb c = pendingB cs ma c := by
  unfold pendingB
  cases hpc : posOf c cs with
  | none => rfl
  | some pc =>
    have hne2 := hnoslot pc hpc
    rw [hs, hst, hi]
    cases hmstate : ma.state with
    | Promise dc =>
      rw [decide_eq_decide]
      omega
    | Revoke w =>
      rw [decide_eq_decide]
      constructor <;> rintro (hx | hx)
      · exact Or.inl hx
      · exact Or.inr (by omega)
      · exact Or.inl hx
      · exact Or.inr (by omega)
    | Fulfill w =>
      rw [decide_eq_decide]
      constructor <;> rintro ⟨hx1, hx2⟩ <;> exact ⟨hx1, by omega⟩
    | Count => rfl
    | Try dc => rfl
    | Disconnected => rfl
    | WouldBlock => rfl
    | TimedOut => rfl
    | Dead => rfl

theorem mod2n_mod (n x : Nat) : (x % (2 * n)) % n = x % n :=
  Nat.mod_mod_of_dvd x ⟨2, by ring⟩

set_option maxHeartbeats 1600000 in
theorem call_loop_lt {T : Type} (cs : List Case) (oc : CallOracle T) (m : Machine) (t : Nat)
    (hnodup : (cs.map Case.id).Nodup) (hwf : WFCases cs)
    (hnc : ¬ m.state = State.Count) (hnd : ¬ m.state = State.Dead)
    (hidx : m.index < 2 * m.len)
    (hInv : CIInv cs m t) :
    ∃ r, execCall m (cs.getD (t % cs.length) dfltCase) oc = Option.some r ∧
      CIInv cs r.2.1 (t + 1) ∧
      (∀ c, balFold (pendingB cs m c) (regEvents r.2.2 c)
        = Option.some (pendingB cs r.2.1 c)) := by
  obtain ⟨hlen, hstart, hione, hile, halign⟩ := CIInv_loop_fields cs m t hnc hnd hInv
  set n := cs.length with hnn
  have hn : 0 < n := by omega
  set j := m.index with hj
  have hjlt : j < 2 * n := by omega
  have hpj : t % n = j % n := by
    rw [halign, Nat.mod_eq_of_lt hjlt]
  have hplt : j % n < n := Nat.mod_lt _ hn
  set p := j % n with hp
  rw [hpj]
  set k := cs.getD p dfltCase with hk
  have heff : effId k = k.id := effId_getD cs hwf p hplt
  set m1 : Machine := { m with index := m.index + 1 } with hm1
  have hm1state : m1.state = m.state := rfl
  have hstep : m.step oc.env (effId k)
      = Option.some (visitGate m.start_index m.len m.index, m1, []) :=
    step_loop_lt m oc.env (effId k) hnd hnc hidx
  have hgate : visitGate m.start_index m.len m.index = true ↔ slotOf m.start_index n p = j := by
    rw [hlen]
    exact gate_slot m.start_index n j hstart hjlt
  have hexec := execCall_eq m k oc _ m1 [] hstep (by rw [hm1state]; exact hnd)
  have hInvNext : ∀ m2 : Machine, ¬ m2.state = State.Count → m2.index = j + 1 →
      m2.len = m.len → m2.start_index = m.start_index → CIInv cs m2 (t + 1) := by
    intro m2 hc2 hi2 hl2 hs2
    by_cases hd2 : m2.state = State.Dead
    · exact CIInv_dead cs m2 (t + 1) hd2
    · refine CIInv_of_fields cs m2 (t + 1) hc2 hd2 (by omega) (by omega) (by omega)
        (by omega) ?_
      rw [hi2, mod2n_mod, mod_succ_mod t n hn, hpj, mod_succ_mod j n hn]
  -- the slot j is the unique gate slot of position p when the gate passes;
  -- when it fails, no real position has slot j
  have hslot_ne : visitGate m.start_index m.len m.index = false →
      ∀ q, q < n → slotOf m.start_index n q ≠ j := by
    intro hg q hq hqj
    have : q = p := by
      rw [hp, ← hqj, slotOf_mod m.start_index n q hq]
    subst this
    rw [hgate.mpr hqj] at hg
    cases hg
  cases hg : visitGate m.start_index m.len m.index with
  | false =>
    rw [hg, if_neg (by simp)] at hexec
    refine ⟨(false, m1, []), hexec, hInvNext m1 (by rw [hm1state]; exact hnc) rfl rfl rfl,
      fun c => ?_⟩
    have hpend : pendingB cs m1 c = pendingB cs m c := by
      unfold pendingB
      cases hpc : posOf c cs with
      | none => rfl
      | some pc =>
        have hspec := posOf_spec c cs pc hpc
        have hne2 := hslot_ne hg pc (by have := hspec.1; omega)
        cases hmstate : m.state with
        | Promise dc =>
          dsimp only
          rw [decide_eq_decide, ← hnn]
          omega
        | Revoke w =>
          dsimp only
          rw [decide_eq_decide, ← hnn]
          constructor <;> rintro (hx | hx)
          · exact Or.inl hx
          · exact Or.inr (by omega)
          · exact Or.inl hx
          · exact Or.inr (by omega)
        | Fulfill w =>
          dsimp only
          rw [decide_eq_decide, ← hnn]
          constructor <;> rintro ⟨hx1, hx2⟩ <;> exact ⟨hx1, by omega⟩
        | Count => rfl
        | Try dc => rfl
        | Disconnected => rfl
        | WouldBlock => rfl
        | TimedOut => rfl
        | Dead => rfl
    rw [hpend]
    cases pendingB cs m c <;> rfl
  | true =>
    rw [hg, if_pos rfl] at hexec
    have hslot0 : slotOf m.start_index cs.length p = m.index := by
      have hx := hgate.mp hg
      rw [hnn, hj] at hx
      exact hx
    have hpeq_of_slot : ∀ pc, pc < cs.length →
        slotOf m.start_index cs.length pc = m.index → pc = p := by
      intro pc hpclt heq2
      have h1 : slotOf m.start_index cs.length pc % cs.length = pc :=
        slotOf_mod _ _ _ hpclt
      rw [heq2] at h1
      have h2 : p = m.index % cs.length := by rw [hp, hj, hnn]
      rw [h2]
      exact h1.symm
    have honly : ∀ c2 pc, posOf c2 cs = Option.some pc → c2 ≠ k.id →
        slotOf m.start_index cs.length pc ≠ m.index := by
      intro c2 pc hpc hne2 heq2
      have hspec := posOf_spec c2 cs pc hpc
      have hpeq : pc = p := hpeq_of_slot pc hspec.1 heq2
      subst hpeq
      exact hne2 (by rw [hk]; exact hspec.2.1.symm)
    have hsynth_noslot : realKind k.kind = false →
        ∀ c2 pc, posOf c2 cs = Option.some pc →
          slotOf m.start_index cs.length pc ≠ m.index := by
      intro hreal c2 pc hpc heq2
      have hspec := posOf_spec c2 cs pc hpc
      have hpeq : pc = p := hpeq_of_slot pc hspec.1 heq2
      subst hpeq
      rw [← hk] at hspec
      rw [hspec.2.2] at hreal
      cases hreal
    have hkpos : realKind k.kind = true → posOf k.id cs = Option.some p := by
      intro hreal
      exact posOf_complete k.id cs hnodup p (by omega) (by rw [hk]) (by rw [← hk]; exact hreal)
    have e2 : m1.index = m.index + 1 := rfl
    have e1 : m1.start_index = m.start_index := rfl
    have e0 : m1.len = m.len := rfl
    cases hmstate : m.state with
    | Count => exact absurd hmstate hnc
    | Dead => exact absurd hmstate hnd
    | Try dc =>
      have harm := armResult_try k oc m1 dc (by rw [hm1state]; exact hmstate)
      refine ⟨_, hexec, ?_, fun c => ?_⟩
      · refine hInvNext _ ?_ ?_ ?_ ?_
        · rcases harm.1 with ⟨dc2, h2⟩ | h2 <;> rw [h2] <;> simp
        · rw [harm.2.2.1, e2, hj]
        · rw [harm.2.2.2.1, e0]
        · rw [harm.2.2.2.2, e1]
      · rw [pendingB_false cs m c (by rw [hmstate]; tauto),
          pendingB_false cs _ c ?_, harm.2.1]
        · rfl
        · rcases harm.1 with ⟨dc2, h2⟩ | h2
          · exact Or.inr (Or.inr (Or.inl ⟨dc2, h2⟩))
          · exact Or.inr (Or.inl h2)
    | Disconnected =>
      have harm := armResult_terminal k oc m1 (Or.inl (by rw [hm1state]; exact hmstate))
      refine ⟨_, hexec, ?_, fun c => ?_⟩
      · refine hInvNext _ ?_ ?_ ?_ ?_
        · rcases harm.1 with h2 | h2
          · rw [h2, hm1state, hmstate]
            simp
          · rw [h2]
            simp
        · rw [harm.2.2.1, e2, hj]
        · rw [harm.2.2.2.1, e0]
        · rw [harm.2.2.2.2, e1]
      · rw [pendingB_false cs m c (Or.inr (Or.inr (Or.inr (Or.inl hmstate)))),
          pendingB_false cs _ c ?_, harm.2.1]
        · rfl
        · rcases harm.1 with h2 | h2
          · exact Or.inr (Or.inr (Or.inr (Or.inl (by rw [h2, hm1state]; exact hmstate))))
          · exact Or.inr (Or.inl h2)
    | WouldBlock =>
      have harm := armResult_terminal k oc m1 (Or.inr (Or.inl (by rw [hm1state]; exact hmstate)))
      refine ⟨_, hexec, ?_, fun c => ?_⟩
      · refine hInvNext _ ?_ ?_ ?_ ?_
        · rcases harm.1 with h2 | h2
          · rw [h2, hm1state, hmstate]
            simp
          · rw [h2]
            simp
        · rw [harm.2.2.1, e2, hj]
        · rw [harm.2.2.2.1, e0]
        · rw [harm.2.2.2.2, e1]
      · rw [pendingB_false cs m c (Or.inr (Or.inr (Or.inr (Or.inr (Or.inl hmstate))))),
          pendingB_false cs _ c ?_, harm.2.1]
        · rfl
        · rcases harm.1 with h2 | h2
          · exact Or.inr (Or.inr (Or.inr (Or.inr (Or.inl (by rw [h2, hm1state]; exact hmstate)))))
          · exact Or.inr (Or.inl h2)
    | TimedOut =>
      have harm := armResult_terminal k oc m1 (Or.inr (Or.inr ((by rw [hm1state]; exact hmstate))))
      refine ⟨_, hexec, ?_, fun c => ?_⟩
      · refine hInvNext _ ?_ ?_ ?_ ?_
        · rcases harm.1 with h2 | h2
          · rw [h2, hm1state, hmstate]
            simp
          · rw [h2]
            simp
        · rw [harm.2.2.1, e2, hj]
        · rw [harm.2.2.2.1, e0]
        · rw [harm.2.2.2.2, e1]
      · rw [pendingB_false cs m c (Or.inr (Or.inr (Or.inr (Or.inr (Or.inr (hmstate)))))),
          pendingB_false cs _ c ?_, harm.2.1]
        · rfl
        · rcases harm.1 with h2 | h2
          · exact Or.inr (Or.inr (Or.inr (Or.inr (Or.inr ((by rw [h2, hm1state]; exact hmstate))))))
          · exact Or.inr (Or.inl h2)
    | Promise dc =>
      have hm1p : m1.state = State.Promise dc := by rw [hm1state]; exact hmstate
      by_cases hreal : realKind k.kind = true
      · obtain ⟨⟨dc2, hstate2⟩, hcommit, hidx2, hlen2, hstart2, hevents⟩ :=
          armResult_promise_real k oc m1 dc hm1p hreal
        refine ⟨_, hexec, ?_, fun c => ?_⟩
        · refine hInvNext _ (by rw [hstate2]; simp) ?_ ?_ ?_
          · rw [hidx2, e2, hj]
          · rw [hlen2, e0]
          · rw [hstart2, e1]
        · rw [List.nil_append, hevents c,
            pendingB_promise cs m c dc hmstate, pendingB_promise cs _ c dc2 hstate2,
            hstart2, e1, hidx2, e2]
          cases hpc : posOf c cs with
          | none =>
            rw [if_neg ?_]
            · rfl
            · intro hceq
              have h1 := hkpos hreal
              rw [hceq, hpc] at h1
              cases h1
          | some pc =>
            by_cases hc : c = k.id
            · have hpeq : pc = p := by
                have h1 := hkpos hreal
                rw [← hc, hpc] at h1
                cases h1
                rfl
              subst hpeq
              dsimp only
              rw [if_pos hc.symm, hslot0]
              simp [balFold]
            · have hslotne := honly c pc hpc hc
              dsimp only
              rw [if_neg (fun hx => hc hx.symm)]
              have hdeq : decide (slotOf m.start_index cs.length pc < m.index + 1)
                  = decide (slotOf m.start_index cs.length pc < m.index) := by
                rw [decide_eq_decide]
                omega
              rw [hdeq]
              exact balFold_nil _
      · have hrealf : realKind k.kind = false := by
          revert hreal
          cases realKind k.kind <;> simp
        have harm := armResult_promise_synth k oc m1 dc hm1p hrealf
        rw [harm] at hexec
        refine ⟨_, hexec, hInvNext m1 (by rw [hm1state, hmstate]; simp) rfl rfl rfl,
          fun c => ?_⟩
        rw [pendingB_step_noslot cs m m1 c hm1state e1 e2
          (fun pc hpc => hsynth_noslot hrealf c pc hpc)]
        cases pendingB cs m c <;> rfl
    | Revoke w =>
      have hm1r : m1.state = State.Revoke w := by rw [hm1state]; exact hmstate
      by_cases hreal : realKind k.kind = true
      · obtain ⟨hm2, hcommit, hevents⟩ := armResult_revoke_real k oc m1 w hm1r hreal
        refine ⟨_, hexec, ?_, fun c => ?_⟩
        · refine hInvNext _ ?_ ?_ ?_ ?_
          · rw [hm2, hm1state, hmstate]
            simp
          · rw [hm2, e2, hj]
          · rw [hm2, e0]
          · rw [hm2, e1]
        · rw [List.nil_append, hevents c,
            pendingB_revoke cs m c w hmstate,
            pendingB_revoke cs _ c w (by rw [hm2]; exact hm1r), hm2, e1, e2]
          cases hpc : posOf c cs with
          | none =>
            dsimp only
            rw [if_neg ?_]
            · rfl
            · rintro ⟨hx1, hx2⟩
              have h1 := hkpos hreal
              rw [hx2, hpc] at h1
              cases h1
          | some pc =>
            dsimp only
            by_cases hc : c = k.id
            · have hpeq : pc = p := by
                have h1 := hkpos hreal
                rw [← hc, hpc] at h1
                cases h1
                rfl
              subst hpeq
              by_cases hw : k.id = w
              · rw [if_neg (fun hx => hx.1 hw), hslot0]
                have hcw : c = w := by rw [hc, hw]
                rw [decide_eq_true (Or.inl hcw), decide_eq_true (Or.inl hcw)]
                rfl
              · rw [if_pos ⟨hw, hc.symm⟩, hslot0]
                have hcw : ¬ c = w := by rw [hc]; exact hw
                rw [decide_eq_true (Or.inr (Nat.le_refl _)), decide_eq_false ?_]
                · rfl
                · rintro (hx | hx)
                  · exact hcw hx
                  · omega
            · have hslotne := honly c pc hpc hc
              rw [if_neg (fun hx => hc hx.2.symm)]
              have hdeq : decide (c = w ∨ m.index + 1 ≤ slotOf m.start_index cs.length pc)
                  = decide (c = w ∨ m.index ≤ slotOf m.start_index cs.length pc) := by
                rw [decide_eq_decide]
                constructor <;> rintro (hx | hx)
                · exact Or.inl hx
                · exact Or.inr (by omega)
                · exact Or.inl hx
                · exact Or.inr (by omega)
              rw [hdeq]
              exact balFold_nil _
      · have hrealf : realKind k.kind = false := by
          revert hreal
          cases realKind k.kind <;> simp
        have harm := armResult_revoke_synth k oc m1 w hm1r hrealf
        rw [harm] at hexec
        refine ⟨_, hexec, hInvNext m1 (by rw [hm1state, hmstate]; simp) rfl rfl rfl,
          fun c => ?_⟩
        rw [pendingB_step_noslot cs m m1 c hm1state e1 e2
          (fun pc hpc => hsynth_noslot hrealf c pc hpc)]
        cases pendingB cs m c <;> rfl
    | Fulfill w =>
      have hm1f : m1.state = State.Fulfill w := by rw [hm1state]; exact hmstate
      by_cases hreal : realKind k.kind = true
      · obtain ⟨hstate2, hidx2, hlen2, hstart2, hdeadw, hevents⟩ :=
          armResult_fulfill_real k oc m1 w hm1f hreal
        refine ⟨_, hexec, ?_, fun c => ?_⟩
        · refine hInvNext _ ?_ ?_ ?_ ?_
          · rcases hstate2 with h2 | h2 <;> rw [h2] <;> simp
          · rw [hidx2, e2, hj]
          · rw [hlen2, e0]
          · rw [hstart2, e1]
        · rw [List.nil_append, hevents c, pendingB_fulfill cs m c w hmstate]
          rcases hstate2 with hs2 | hs2
          · rw [pendingB_fulfill cs _ c w hs2, hstart2, e1, hidx2, e2]
            cases hpc : posOf c cs with
            | none =>
              dsimp only
              rw [if_neg ?_]
              · rfl
              · rintro ⟨hx1, hx2⟩
                have h1 := hkpos hreal
                rw [hx2, hpc] at h1
                cases h1
            | some pc =>
              dsimp only
              by_cases hc : c = k.id
              · have hpeq : pc = p := by
                  have h1 := hkpos hreal
                  rw [← hc, hpc] at h1
                  cases h1
                  rfl
                subst hpeq
                by_cases hw : k.id = w
                · have hcw : c = w := by rw [hc, hw]
                  rw [if_pos ⟨hw, hc.symm⟩, hslot0,
                    decide_eq_true ⟨hcw, Nat.le_refl _⟩, decide_eq_false ?_]
                  · rfl
                  · rintro ⟨hx1, hx2⟩
                    omega
                · have hcw : ¬ c = w := by rw [hc]; exact hw
                  rw [if_neg (fun hx => hw hx.1), hslot0,
                    decide_eq_false (fun hx => hcw hx.1),
                    decide_eq_false (fun hx => hcw hx.1)]
                  rfl
              · have hslotne := honly c pc hpc hc
                rw [if_neg (fun hx => hc hx.2.symm)]
                have hdeq : decide (c = w ∧ m.index + 1 ≤ slotOf m.start_index cs.length pc)
                    = decide (c = w ∧ m.index ≤ slotOf m.start_index cs.length pc) := by
                  rw [decide_eq_decide]
                  constructor <;> rintro ⟨hx1, hx2⟩ <;> exact ⟨hx1, by omega⟩
                rw [hdeq]
                exact balFold_nil _
          · have hkw := hdeadw hs2
            rw [pendingB_false cs _ c (Or.inr (Or.inl hs2))]
            cases hpc : posOf c cs with
            | none =>
              dsimp only
              rw [if_neg ?_]
              · rfl
              · rintro ⟨hx1, hx2⟩
                have h1 := hkpos hreal
                rw [hx2, hpc] at h1
                cases h1
            | some pc =>
              dsimp only
              by_cases hc : c = k.id
              · have hpeq : pc = p := by
                  have h1 := hkpos hreal
                  rw [← hc, hpc] at h1
                  cases h1
                  rfl
                subst hpeq
                have hcw : c = w := by rw [hc, hkw]
                rw [if_pos ⟨hkw, hc.symm⟩, hslot0,
                  decide_eq_true ⟨hcw, Nat.le_refl _⟩]
                rfl
              · have hcw : ¬ c = w := by
                  rw [← hkw]
                  exact hc
                rw [if_neg (fun hx => hc hx.2.symm),
                  decide_eq_false (fun hx => hcw hx.1)]
                rfl
      · have hrealf : realKind k.kind = false := by
          revert hreal
          cases realKind k.kind <;> simp
        have harm := armResult_fulfill_synth k oc m1 w hm1f hrealf
        rw [harm] at hexec
        refine ⟨_, hexec, hInvNext m1 (by rw [hm1state, hmstate]; simp) rfl rfl rfl,
          fun c => ?_⟩
        rw [pendingB_step_noslot cs m m1 c hm1state e1 e2
          (fun pc hpc => hsynth_noslot hrealf c pc hpc)]
        cases pendingB cs m c <;> rfl

theorem visitGate_zero (start n : Nat) (hn : 0 < n) :
    visitGate start n 0 = true ↔ start = 0 := by
  unfold visitGate
  rw [decide_eq_true_eq]
  omega

theorem slotOf_zero_iff (start n p : Nat) (hn : 0 < n) :
    slotOf start n p = 0 ↔ p = 0 ∧ start = 0 := by
  unfold slotOf
  split_ifs <;> omega

theorem boundary_triv_case {T : Type} (cs : List Case) (k : Case) (oc : CallOracle T)
    (m m1 : Machine) (t : Nat)
    (hm1terb : m1.state = State.Disconnected ∨ m1.state = State.WouldBlock ∨
      m1.state = State.TimedOut ∨ (∃ dc, m1.state = State.Try dc))
    (hi1 : m1.index = 1) (hl1 : m1.len = m.len) (hs1 : m1.start_index = m.start_index)
    (hstep : m.step oc.env (effId k) = Option.some (visitGate m.start_index m.len 0, m1, []))
    (hpre : ∀ c, pendingB cs m c = false)
    (hInvNext : ∀ m3 : Machine, ¬ m3.state = State.Count → m3.index = 1 →
      m3.len = m.len → m3.start_index = m.start_index → CIInv cs m3 (t + 1)) :
    ∃ r, execCall m k oc = Option.some r ∧
      CIInv cs r.2.1 (t + 1) ∧
      (∀ c, balFold (pendingB cs m c) (regEvents r.2.2 c)
        = Option.some (pendingB cs r.2.1 c)) := by
  have hm1nd : ¬ m1.state = State.Dead := by
    rcases hm1terb with h | h | h | ⟨dc, h⟩ <;> rw [h] <;> simp
  have hm1nc : ¬ m1.state = State.Count := by
    rcases hm1terb with h | h | h | ⟨dc, h⟩ <;> rw [h] <;> simp
  have hexec := execCall_eq m k oc _ m1 [] hstep hm1nd
  have hpost1 : ∀ c, pendingB cs m1 c = false := by
    intro c
    rcases hm1terb with h | h | h | ⟨dc, h⟩
    · exact pendingB_false cs m1 c (Or.inr (Or.inr (Or.inr (Or.inl h))))
    · exact pendingB_false cs m1 c (Or.inr (Or.inr (Or.inr (Or.inr (Or.inl h)))))
    · exact pendingB_false cs m1 c (Or.inr (Or.inr (Or.inr (Or.inr (Or.inr h)))))
    · exact pendingB_false cs m1 c (Or.inr (Or.inr (Or.inl ⟨dc, h⟩)))
  cases hg : visitGate m.start_index m.len 0 with
  | false =>
    rw [hg, if_neg (by simp)] at hexec
    refine ⟨(false, m1, []), hexec, hInvNext m1 hm1nc hi1 hl1 hs1, fun c => ?_⟩
    rw [hpre c, hpost1 c]
    rfl
  | true =>
    rw [hg, if_pos rfl] at hexec
    have harm : ((armResult k oc m1).2.1.state = m1.state ∨
        (∃ dc2, (armResult k oc m1).2.1.state = State.Try dc2) ∨
        (armResult k oc m1).2.1.state = State.Dead)
        ∧ (armResult k oc m1).2.2 = []
        ∧ (armResult k oc m1).2.1.index = m1.index
        ∧ (armResult k oc m1).2.1.len = m1.len
        ∧ (armResult k oc m1).2.1.start_index = m1.start_index := by
      rcases hm1terb with h | h | h | ⟨dc, h⟩
      · have h2 := armResult_terminal k oc m1 (Or.inl h)
        exact ⟨h2.1.elim Or.inl (fun hx => Or.inr (Or.inr hx)), h2.2⟩
      · have h2 := armResult_terminal k oc m1 (Or.inr (Or.inl h))
        exact ⟨h2.1.elim Or.inl (fun hx => Or.inr (Or.inr hx)), h2.2⟩
      · have h2 := armResult_terminal k oc m1 (Or.inr (Or.inr h))
        exact ⟨h2.1.elim Or.inl (fun hx => Or.inr (Or.inr hx)), h2.2⟩
      · have h2 := armResult_try k oc m1 dc h
        exact ⟨h2.1.elim (fun hx => Or.inr (Or.inl hx)) (fun hx => Or.inr (Or.inr hx)), h2.2⟩
    obtain ⟨hstate2, hev2, hidx2, hlen2, hstart2⟩ := harm
    have hpost2 : ∀ c, pendingB cs (armResult k oc m1).2.1 c = false := by
      intro c
      rcases hstate2 with h | ⟨dc2, h⟩ | h
      · rcases hm1terb with h3 | h3 | h3 | ⟨dc3, h3⟩
        · exact pendingB_false cs _ c (Or.inr (Or.inr (Or.inr (Or.inl (h.trans h3)))))
        · exact pendingB_false cs _ c (Or.inr (Or.inr (Or.inr (Or.inr (Or.inl (h.trans h3))))))
        · exact pendingB_false cs _ c (Or.inr (Or.inr (Or.inr (Or.inr (Or.inr (h.trans h3))))))
        · exact pendingB_false cs _ c (Or.inr (Or.inr (Or.inl ⟨dc3, h.trans h3⟩)))
      · exact pendingB_false cs _ c (Or.inr (Or.inr (Or.inl ⟨dc2, h⟩)))
      · exact pendingB_false cs _ c (Or.inr (Or.inl h))
    refine ⟨_, hexec, ?_, fun c => ?_⟩
    · refine hInvNext _ ?_ (hidx2.trans hi1) (hlen2.trans hl1) (hstart2.trans hs1)
      rcases hstate2 with h | ⟨dc2, h⟩ | h
      · rw [h]; exact hm1nc
      · rw [h]; simp
      · rw [h]; simp
    · rw [List.nil_append, hev2, hpre c, hpost2 c]
      rfl

set_option maxHeartbeats 1600000 in
theorem call_loop_boundary {T : Type} (cs : List Case) (oc : CallOracle T) (m : Machine)
    (t : Nat) (hnodup : (cs.map Case.id).Nodup) (hwf : WFCases cs)
    (hnc : ¬ m.state = State.Count) (hnd : ¬ m.state = State.Dead)
    (hidx : 2 * m.len ≤ m.index)
    (hInv : CIInv cs m t) :
    ∃ r, execCall m (cs.getD (t % cs.length) dfltCase) oc = Option.some r ∧
      CIInv cs r.2.1 (t + 1) ∧
      (∀ c, balFold (pendingB cs m c) (regEvents r.2.2 c)
        = Option.some (pendingB cs r.2.1 c)) := by
  obtain ⟨hlen, hstart, hione, hile, halign⟩ := CIInv_loop_fields cs m t hnc hnd hInv
  have hn : 0 < cs.length := by omega
  have hieq : m.index = 2 * cs.length := by omega
  have hp0 : t % cs.length = 0 := by
    rw [halign, hieq, Nat.mod_self, Nat.zero_mod]
  rw [hp0]
  set k := cs.getD 0 dfltCase with hk
  have hgz : visitGate m.start_index m.len 0 = true ↔ m.start_index = 0 := by
    rw [hlen]
    exact visitGate_zero m.start_index cs.length hn
  have hslot_lt : ∀ pc, pc < cs.length →
      slotOf m.start_index cs.length pc < 2 * cs.length := by
    intro pc hpc
    have := slotOf_bounds m.start_index cs.length pc hstart hpc
    omega
  have hkpos0 : realKind k.kind = true → posOf k.id cs = Option.some 0 := fun hreal =>
    posOf_complete k.id cs hnodup 0 hn (by rw [hk]) (by rw [← hk]; exact hreal)
  have hpc_ne0_of_ne : ∀ c2 pc, posOf c2 cs = Option.some pc → ¬ c2 = k.id → ¬ pc = 0 := by
    intro c2 pc hpc hne2 h0
    subst h0
    have hspec := posOf_spec c2 cs 0 hpc
    exact hne2 (hspec.2.1.symm.trans (congrArg Case.id hk).symm)
  have hpc_ne0_synth : realKind k.kind = false →
      ∀ c2 pc, posOf c2 cs = Option.some pc → ¬ pc = 0 := by
    intro hrealf c2 pc hpc h0
    subst h0
    have hspec := posOf_spec c2 cs 0 hpc
    rw [← hk] at hspec
    rw [hspec.2.2] at hrealf
    cases hrealf
  have hInvNext : ∀ m3 : Machine, ¬ m3.state = State.Count → m3.index = 1 →
      m3.len = m.len → m3.start_index = m.start_index → CIInv cs m3 (t + 1) := by
    intro m3 hc3 hi3 hl3 hs3
    by_cases hd3 : m3.state = State.Dead
    · exact CIInv_dead cs m3 (t + 1) hd3
    · refine CIInv_of_fields cs m3 (t + 1) hc3 hd3 (by omega) (by omega) (by omega)
        (by omega) ?_
      rw [hi3, mod_succ_mod t cs.length hn, hp0,
        Nat.mod_eq_of_lt (show (1 : Nat) < 2 * cs.length by omega)]
  cases hmstate : m.state with
  | Count => exact absurd hmstate hnc
  | Dead => exact absurd hmstate hnd
  | Disconnected =>
    exact boundary_triv_case cs k oc m { m with index := 1 } t (Or.inl hmstate) rfl rfl rfl
      (step_loop_boundary m oc.env (effId k) _ _ hnd hnc hidx
        (transition_terminal_eq m oc.env (Or.inl hmstate)))
      (fun c => pendingB_false cs m c (Or.inr (Or.inr (Or.inr (Or.inl hmstate))))) hInvNext
  | WouldBlock =>
    exact boundary_triv_case cs k oc m { m with index := 1 } t (Or.inr (Or.inl hmstate))
      rfl rfl rfl
      (step_loop_boundary m oc.env (effId k) _ _ hnd hnc hidx
        (transition_terminal_eq m oc.env (Or.inr (Or.inl hmstate))))
      (fun c => pendingB_false cs m c (Or.inr (Or.inr (Or.inr (Or.inr (Or.inl hmstate))))))
      hInvNext
  | TimedOut =>
    exact boundary_triv_case cs k oc m { m with index := 1 } t
      (Or.inr (Or.inr (Or.inl hmstate))) rfl rfl rfl
      (step_loop_boundary m oc.env (effId k) _ _ hnd hnc hidx
        (transition_terminal_eq m oc.env (Or.inr (Or.inr hmstate))))
      (fun c => pendingB_false cs m c (Or.inr (Or.inr (Or.inr (Or.inr (Or.inr hmstate))))))
      hInvNext
  | Try dc =>
    have htr0 := transition_try_eq m oc.env dc hmstate
    have hpre : ∀ c, pendingB cs m c = false := fun c =>
      pendingB_false cs m c (Or.inr (Or.inr (Or.inl ⟨dc, hmstate⟩)))
    by_cases hdall : m.has_disconnected_case = true ∧
        m.send_case_count + m.recv_case_count = dc
    · rw [if_pos hdall] at htr0
      exact boundary_triv_case cs k oc m { m with state := State.Disconnected, index := 1 } t
        (Or.inl rfl) rfl rfl rfl
        (step_loop_boundary m oc.env (effId k) _ _ hnd hnc hidx htr0) hpre hInvNext
    · rw [if_neg hdall] at htr0
      by_cases hwb : m.has_would_block_case = true
      · rw [if_pos hwb] at htr0
        exact boundary_triv_case cs k oc m { m with state := State.WouldBlock, index := 1 } t
          (Or.inr (Or.inl rfl)) rfl rfl rfl
          (step_loop_boundary m oc.env (effId k) _ _ hnd hnc hidx htr0) hpre hInvNext
      · rw [if_neg hwb] at htr0
        set m1 : Machine := { m with state := State.Promise 0, index := 1 } with hm1
        have hm1st : m1.state = State.Promise 0 := rfl
        have eidx : m1.index = 1 := rfl
        have esi : m1.start_index = m.start_index := rfl
        have elen : m1.len = m.len := rfl
        have hstep : m.step oc.env (effId k)
            = Option.some (visitGate m.start_index m.len 0, m1, [Effect.reset]) :=
          step_loop_boundary m oc.env (effId k) _ _ hnd hnc hidx htr0
        have hexec := execCall_eq m k oc _ m1 [Effect.reset] hstep (by rw [hm1st]; simp)
        cases hg : visitGate m.start_index m.len 0 with
        | false =>
          rw [hg, if_neg (by simp)] at hexec
          have hstartne : ¬ m.start_index = 0 := by
            intro h0
            rw [hgz.mpr h0] at hg
            cases hg
          refine ⟨(false, m1, [Effect.reset]), hexec,
            hInvNext m1 (by rw [hm1st]; simp) rfl rfl rfl, fun c => ?_⟩
          have hpost : pendingB cs m1 c = false := by
            rw [pendingB_promise cs m1 c 0 hm1st]
            cases hpc : posOf c cs with
            | none => rfl
            | some pc =>
              dsimp only
              rw [decide_eq_false ?_]
              intro hlt
              exact hstartne
                ((slotOf_zero_iff m.start_index cs.length pc hn).mp (by omega)).2
          rw [hpre c, hpost, show regEvents [Effect.reset] c = [] from rfl]
          rfl
        | true =>
          rw [hg, if_pos rfl] at hexec
          have hstart0 : m.start_index = 0 := hgz.mp hg
          by_cases hreal : realKind k.kind = true
          · obtain ⟨⟨dc2, hdc2⟩, hcommit, hidx2, hlen2, hstart2, hevents⟩ :=
              armResult_promise_real k oc m1 0 hm1st hreal
            refine ⟨_, hexec, ?_, fun c => ?_⟩
            · exact hInvNext _ (by rw [hdc2]; simp) (hidx2.trans eidx) (hlen2.trans elen)
                (hstart2.trans esi)
            · rw [regEvents_append, show regEvents [Effect.reset] c = [] from rfl,
                List.nil_append, hevents c, hpre c,
                pendingB_promise cs _ c dc2 hdc2, hidx2, eidx, hstart2, esi, hstart0]
              cases hpc : posOf c cs with
              | none =>
                dsimp only
                rw [if_neg ?_]
                · rfl
                · intro h2
                  rw [← h2, hkpos0 hreal] at hpc
                  cases hpc
              | some pc =>
                dsimp only
                by_cases hc : c = k.id
                · have hpc0 : pc = 0 := by
                    rw [hc, hkpos0 hreal] at hpc
                    cases hpc
                    rfl
                  subst hpc0
                  rw [if_pos hc.symm, decide_eq_true ?_]
                  · rfl
                  · have h0 : slotOf 0 cs.length 0 = 0 := rfl
                    omega
                · have hpcne : ¬ pc = 0 := hpc_ne0_of_ne c pc hpc hc
                  rw [if_neg (fun hx => hc hx.symm), decide_eq_false ?_]
                  · rfl
                  · intro hlt
                    exact hpcne ((slotOf_zero_iff 0 cs.length pc hn).mp (by omega)).1
          · have hrealf : realKind k.kind = false := by
              revert hreal
              cases realKind k.kind <;> simp
            have harm := armResult_promise_synth k oc m1 0 hm1st hrealf
            rw [harm] at hexec
            refine ⟨_, hexec, ?_, fun c => ?_⟩
            · exact hInvNext m1 (by rw [hm1st]; simp) rfl rfl rfl
            · have hpost : pendingB cs m1 c = false := by
                rw [pendingB_promise cs m1 c 0 hm1st]
                cases hpc : posOf c cs with
                | none => rfl
                | some pc =>
                  dsimp only
                  rw [hstart0, decide_eq_false ?_]
                  intro hlt
                  exact (hpc_ne0_synth hrealf c pc hpc)
                    ((slotOf_zero_iff 0 cs.length pc hn).mp (by omega)).1
              dsimp only
              rw [regEvents_append, show regEvents [Effect.reset] c = [] from rfl,
                List.nil_append, regEvents_nil, hpre c, hpost]
              rfl
  | Promise dc =>
    have htr0 := transition_promise_eq m oc.env dc hmstate
    set m1 : Machine := { m with state := State.Revoke oc.env.selected, index := 1 } with hm1
    have hm1st : m1.state = State.Revoke oc.env.selected := rfl
    have eidx : m1.index = 1 := rfl
    have esi : m1.start_index = m.start_index := rfl
    have elen : m1.len = m.len := rfl
    have hEreg : ∀ c, regEvents (if m.has_disconnected_case = true ∧
        m.send_case_count + m.recv_case_count = dc then [Effect.try_select CaseId.abort]
        else [Effect.wait_until m.deadline]) c = [] := by
      intro c
      split_ifs <;> rfl
    have hstep : m.step oc.env (effId k)
        = Option.some (visitGate m.start_index m.len 0, m1,
          if m.has_disconnected_case = true ∧
              m.send_case_count + m.recv_case_count = dc then [Effect.try_select CaseId.abort]
          else [Effect.wait_until m.deadline]) :=
      step_loop_boundary m oc.env (effId k) _ _ hnd hnc hidx htr0
    have hexec := execCall_eq m k oc _ m1 _ hstep (by rw [hm1st]; simp)
    have hpre_none : ∀ c, posOf c cs = Option.none → pendingB cs m c = false := by
      intro c hpc
      rw [pendingB_promise cs m c dc hmstate, hpc]
    have hpre_some : ∀ c pc, posOf c cs = Option.some pc → pendingB cs m c = true := by
      intro c pc hpc
      rw [pendingB_promise cs m c dc hmstate, hpc]
      dsimp only
      rw [hieq]
      exact decide_eq_true (hslot_lt pc (posOf_spec c cs pc hpc).1)
    cases hg : visitGate m.start_index m.len 0 with
    | false =>
      rw [hg, if_neg (by simp)] at hexec
      have hstartne : ¬ m.start_index = 0 := by
        intro h0
        rw [hgz.mpr h0] at hg
        cases hg
      refine ⟨_, hexec, hInvNext m1 (by rw [hm1st]; simp) rfl rfl rfl, fun c => ?_⟩
      rw [hEreg c, balFold_nil]
      congr 1
      rw [pendingB_revoke cs m1 c oc.env.selected hm1st]
      cases hpc : posOf c cs with
      | none =>
        rw [hpre_none c hpc]
      | some pc =>
        dsimp only
        rw [hpre_some c pc hpc]
        symm
        refine decide_eq_true (Or.inr ?_)
        have hne0 : ¬ slotOf m.start_index cs.length pc = 0 := fun h0 =>
          hstartne ((slotOf_zero_iff m.start_index cs.length pc hn).mp h0).2
        omega
    | true =>
      rw [hg, if_pos rfl] at hexec
      have hstart0 : m.start_index = 0 := hgz.mp hg
      by_cases hreal : realKind k.kind = true
      · obtain ⟨hm2, hcommit, hevents⟩ :=
          armResult_revoke_real k oc m1 oc.env.selected hm1st hreal
        refine ⟨_, hexec, ?_, fun c => ?_⟩
        · refine hInvNext _ ?_ (by rw [hm2]) (by rw [hm2]) (by rw [hm2])
          rw [hm2, hm1st]
          simp
        · rw [regEvents_append, hEreg c, List.nil_append, hevents c, hm2,
            pendingB_revoke cs m1 c oc.env.selected hm1st]
          cases hpc : posOf c cs with
          | none =>
            dsimp only
            rw [hpre_none c hpc, if_neg ?_]
            · rfl
            · rintro ⟨h1, h2⟩
              rw [← h2, hkpos0 hreal] at hpc
              cases hpc
          | some pc =>
            dsimp only
            rw [hpre_some c pc hpc]
            by_cases hc : c = k.id
            · have hpc0 : pc = 0 := by
                rw [hc, hkpos0 hreal] at hpc
                cases hpc
                rfl
              subst hpc0
              by_cases hw2 : k.id = oc.env.selected
              · rw [if_neg (fun hx => hx.1 hw2),
                  decide_eq_true (Or.inl (hc.trans hw2))]
                rfl
              · rw [if_pos ⟨hw2, hc.symm⟩, hstart0, decide_eq_false ?_]
                · rfl
                · rintro (hx | hx)
                  · exact hw2 (hc.symm.trans hx)
                  · have h0 : slotOf 0 cs.length 0 = 0 := rfl
                    omega
            · have hpcne : ¬ pc = 0 := hpc_ne0_of_ne c pc hpc hc
              rw [if_neg (fun hx => hc hx.2.symm), hstart0,
                decide_eq_true (Or.inr ?_)]
              · rfl
              · have hne0 : ¬ slotOf 0 cs.length pc = 0 := fun h0 =>
                  hpcne ((slotOf_zero_iff 0 cs.length pc hn).mp h0).1
                omega
      · have hrealf : realKind k.kind = false := by
          revert hreal
          cases realKind k.kind <;> simp
        have harm := armResult_revoke_synth k oc m1 oc.env.selected hm1st hrealf
        rw [harm] at hexec
        refine ⟨_, hexec, ?_, fun c => ?_⟩
        · exact hInvNext m1 (by rw [hm1st]; simp) rfl rfl rfl
        · dsimp only
          rw [regEvents_append, hEreg c, List.nil_append, regEvents_nil, balFold_nil]
          congr 1
          rw [pendingB_revoke cs m1 c oc.env.selected hm1st]
          cases hpc : posOf c cs with
          | none =>
            rw [hpre_none c hpc]
          | some pc =>
            dsimp only
            rw [hpre_some c pc hpc]
            symm
            refine decide_eq_true (Or.inr ?_)
            have hpcne : ¬ pc = 0 := hpc_ne0_synth hrealf c pc hpc
            have hne0 : ¬ slotOf m.start_index cs.length pc = 0 := fun h0 =>
              hpcne ((slotOf_zero_iff m.start_index cs.length pc hn).mp h0).1
            omega
  | Revoke w =>
    have htr0 := transition_revoke_eq m oc.env w hmstate
    set m1 : Machine := { m with state := State.Fulfill w, index := 1 } with hm1
    have hm1st : m1.state = State.Fulfill w := rfl
    have eidx : m1.index = 1 := rfl
    have esi : m1.start_index = m.start_index := rfl
    have elen : m1.len = m.len := rfl
    have hstep : m.step oc.env (effId k)
        = Option.some (visitGate m.start_index m.len 0, m1, []) :=
      step_loop_boundary m oc.env (effId k) _ _ hnd hnc hidx htr0
    have hexec := execCall_eq m k oc _ m1 [] hstep (by rw [hm1st]; simp)
    have hpre_none : ∀ c, posOf c cs = Option.none → pendingB cs m c = false := by
      intro c hpc
      rw [pendingB_revoke cs m c w hmstate, hpc]
    have hpre_some : ∀ c pc, posOf c cs = Option.some pc →
        pendingB cs m c = decide (c = w) := by
      intro c pc hpc
      rw [pendingB_revoke cs m c w hmstate, hpc]
      dsimp only
      rw [decide_eq_decide]
      have hsl := hslot_lt pc (posOf_spec c cs pc hpc).1
      constructor
      · rintro (hx | hx)
        · exact hx
        · exact absurd hx (by omega)
      · exact Or.inl
    cases hg : visitGate m.start_index m.len 0 with
    | false =>
      rw [hg, if_neg (by simp)] at hexec
      have hstartne : ¬ m.start_index = 0 := by
        intro h0
        rw [hgz.mpr h0] at hg
        cases hg
      refine ⟨(false, m1, []), hexec, hInvNext m1 (by rw [hm1st]; simp) rfl rfl rfl,
        fun c => ?_⟩
      rw [pendingB_fulfill cs m1 c w hm1st]
      cases hpc : posOf c cs with
      | none =>
        rw [hpre_none c hpc]
        rfl
      | some pc =>
        dsimp only
        rw [hpre_some c pc hpc, regEvents_nil, balFold_nil]
        congr 1
        rw [decide_eq_decide]
        have hne0 : ¬ slotOf m.start_index cs.length pc = 0 := fun h0 =>
          hstartne ((slotOf_zero_iff m.start_index cs.length pc hn).mp h0).2
        constructor
        · exact fun hx => ⟨hx, by omega⟩
        · exact fun hx => hx.1
    | true =>
      rw [hg, if_pos rfl] at hexec
      have hstart0 : m.start_index = 0 := hgz.mp hg
      by_cases hreal : realKind k.kind = true
      · obtain ⟨hstate2, hidx2, hlen2, hstart2, hdeadw, hevents⟩ :=
          armResult_fulfill_real k oc m1 w hm1st hreal
        refine ⟨_, hexec, ?_, fun c => ?_⟩
        · refine hInvNext _ ?_ (hidx2.trans eidx) (hlen2.trans elen) (hstart2.trans esi)
          rcases hstate2 with h | h <;> rw [h] <;> simp
        · rw [List.nil_append, hevents c]
          rcases hstate2 with hs2 | hs2
          · rw [pendingB_fulfill cs _ c w hs2, hidx2, eidx, hstart2, esi, hstart0]
            cases hpc : posOf c cs with
            | none =>
              dsimp only
              rw [hpre_none c hpc, if_neg ?_]
              · rfl
              · rintro ⟨h1, h2⟩
                rw [← h2, hkpos0 hreal] at hpc
                cases hpc
            | some pc =>
              dsimp only
              by_cases hc : c = k.id
              · have hpc0 : pc = 0 := by
                  rw [hc, hkpos0 hreal] at hpc
                  cases hpc
                  rfl
                subst hpc0
                rw [hpre_some c 0 hpc]
                by_cases hw2 : k.id = w
                · rw [if_pos ⟨hw2, hc.symm⟩, decide_eq_true (hc.trans hw2),
                    decide_eq_false ?_]
                  · rfl
                  · rintro ⟨hx1, hx2⟩
                    have h0 : slotOf 0 cs.length 0 = 0 := rfl
                    omega
                · rw [if_neg (fun hx => hw2 hx.1),
                    decide_eq_false (fun hx => hw2 (hc.symm.trans hx)),
                    decide_eq_false ?_]
                  · rfl
                  · rintro ⟨hx1, hx2⟩
                    exact hw2 (hc.symm.trans hx1)
              · have hpcne : ¬ pc = 0 := hpc_ne0_of_ne c pc hpc hc
                rw [if_neg (fun hx => hc hx.2.symm), hpre_some c pc hpc, balFold_nil]
                congr 1
                rw [decide_eq_decide]
                have hne0 : ¬ slotOf 0 cs.length pc = 0 := fun h0 =>
                  hpcne ((slotOf_zero_iff 0 cs.length pc hn).mp h0).1
                constructor
                · exact fun hx => ⟨hx, by omega⟩
                · exact fun hx => hx.1
          · have hkw := hdeadw hs2
            rw [pendingB_false cs _ c (Or.inr (Or.inl hs2))]
            cases hpc : posOf c cs with
            | none =>
              rw [hpre_none c hpc, if_neg ?_]
              · rfl
              · rintro ⟨h1, h2⟩
                rw [← h2, hkpos0 hreal] at hpc
                cases hpc
            | some pc =>
              by_cases hc : c = k.id
              · rw [hpre_some c pc hpc, if_pos ⟨hkw, hc.symm⟩,
                  decide_eq_true (hc.trans hkw)]
                rfl
              · rw [hpre_some c pc hpc, if_neg (fun hx => hc hx.2.symm),
                  decide_eq_false (fun hx => hc (hx.trans hkw.symm))]
                rfl
      · have hrealf : realKind k.kind = false := by
          revert hreal
          cases realKind k.kind <;> simp
        have harm := armResult_fulfill_synth k oc m1 w hm1st hrealf
        rw [harm] at hexec
        refine ⟨_, hexec, ?_, fun c => ?_⟩
        · exact hInvNext m1 (by rw [hm1st]; simp) rfl rfl rfl
        · dsimp only
          rw [List.nil_append, regEvents_nil, pendingB_fulfill cs m1 c w hm1st]
          cases hpc : posOf c cs with
          | none =>
            rw [hpre_none c hpc]
            rfl
          | some pc =>
            dsimp only
            rw [hpre_some c pc hpc, balFold_nil]
            congr 1
            rw [decide_eq_decide]
            have hne0 : ¬ slotOf m.start_index cs.length pc = 0 := fun h0 =>
              (hpc_ne0_synth hrealf c pc hpc)
                ((slotOf_zero_iff m.start_index cs.length pc hn).mp h0).1
            constructor
            · exact fun hx => ⟨hx, by omega⟩
            · exact fun hx => hx.1
  | Fulfill w =>
    have htr0 := transition_fulfill_eq m oc.env w hmstate
    have hpre : ∀ c, pendingB cs m c = false := by
      intro c
      rw [pendingB_fulfill cs m c w hmstate]
      cases hpc : posOf c cs with
      | none => rfl
      | some pc =>
        dsimp only
        rw [decide_eq_false ?_]
        rintro ⟨hx1, hx2⟩
        have hsl := hslot_lt pc (posOf_spec c cs pc hpc).1
        omega
    by_cases hto : ∃ e, m.deadline = Option.some e ∧ e ≤ oc.env.now
    · rw [if_pos hto] at htr0
      exact boundary_triv_case cs k oc m { m with state := State.TimedOut, index := 1 } t
        (Or.inr (Or.inr (Or.inl rfl))) rfl rfl rfl
        (step_loop_boundary m oc.env (effId k) _ _ hnd hnc hidx htr0) hpre hInvNext
    · rw [if_neg hto] at htr0
      exact boundary_triv_case cs k oc m { m with state := State.Try 0, index := 1 } t
        (Or.inr (Or.inr (Or.inr ⟨0, rfl⟩))) rfl rfl rfl
        (step_loop_boundary m oc.env (effId k) _ _ hnd hnc hidx htr0) hpre hInvNext

theorem runCalls_invariant {T : Type} (cs : List Case) (o : Nat → CallOracle T)
    (hne : cs ≠ []) (hnodup : (cs.map Case.id).Nodup)
    (hnone : CaseId.none ∉ cs.map Case.id) (hwf : WFCases cs)
    (hrand : ∀ t, (o t).env.small_random cs.length < cs.length) :
    ∀ (fuel : Nat) (m : Machine) (t : Nat), CIInv cs m t →
      ∀ c, balFold (pendingB cs m c) (regEvents (runCalls cs o m t fuel).2 c)
        = Option.some (pendingB cs (runCalls cs o m t fuel).1 c) := by
  intro fuel
  induction fuel with
  | zero =>
    intro m t hInv c
    exact balFold_nil (pendingB cs m c)
  | succ f ih =>
    intro m t hInv c
    by_cases hdead : m.state = State.Dead
    · have hrun : runCalls cs o m t (f + 1) = (m, []) := by
        simp only [runCalls]
        rw [if_pos hdead]
      rw [hrun]
      exact balFold_nil (pendingB cs m c)
    · have hstepres : ∃ r : Bool × Machine × List Effect,
          execCall m (cs.getD (t % cs.length) dfltCase) (o t) = Option.some r ∧
          CIInv cs r.2.1 (t + 1) ∧
          (∀ c2, balFold (pendingB cs m c2) (regEvents r.2.2 c2)
            = Option.some (pendingB cs r.2.1 c2)) := by
        by_cases hc : m.state = State.Count
        · have hle : m.len ≤ cs.length := by
            unfold CIInv at hInv
            rw [hc] at hInv
            exact hInv.1
          rcases Nat.lt_or_ge m.len cs.length with hlt | hge
          · obtain ⟨h1, h2, h3⟩ := call_count_a cs (o t) m t hnodup hnone hwf hc hlt hInv
            exact ⟨_, h1, h2, h3⟩
          · exact call_count_b cs (o t) m t hne hwf (hrand t) hc (by omega) hInv
        · rcases Nat.lt_or_ge m.index (2 * m.len) with hlt | hge
          · exact call_loop_lt cs (o t) m t hnodup hwf hc hdead hlt hInv
          · exact call_loop_boundary cs (o t) m t hnodup hwf hc hdead hge hInv
      obtain ⟨⟨b, m1, effs⟩, hcall, hInv2, hbal⟩ := hstepres
      have hrun : runCalls cs o m t (f + 1)
          = ((runCalls cs o m1 (t + 1) f).1, effs ++ (runCalls cs o m1 (t + 1) f).2) := by
        simp only [runCalls]
        rw [if_neg hdead,
          show ({ id := CaseId.none, kind := OpKind.disc } : Case) = dfltCase from rfl,
          hcall]
      rw [hrun, regEvents_append, balFold_append]
      dsimp only
      have hb1 := hbal c
      dsimp only at hb1 hInv2
      rw [hb1, Option.some_bind]
      exact ih m1 (t + 1) hInv2 c

/-- C6: along every caller-loop run from construction whose driver ends
`Dead`, the effect trace is registration-balanced: for every case
identifier, the `promise_send`/`promise_recv` registrations and the
`revoke_send`/`revoke_recv`/`fulfill_send`/`fulfill_recv` settlements
alternate starting with a registration and end settled — every promise is
followed by exactly one revoke or fulfill for the same case before the
driver becomes `Dead`, none is left outstanding, and none is settled
twice.  Hypotheses: the declared case list is nonempty with pairwise
distinct identifiers none of which is the reserved `none` sentinel, each
declared case presents the identifier its operation reports to `step`,
and the random start index is in range. -/
theorem c6_registration_balance {T : Type} (cs : List Case) (o : Nat → CallOracle T)
    (fuel : Nat) (hne : cs ≠ []) (hnodup : (cs.map Case.id).Nodup)
    (hnone : CaseId.none ∉ cs.map Case.id) (hwf : WFCases cs)
    (hrand : ∀ t, (o t).env.small_random cs.length < cs.length)
    (hdead : (runCalls cs o Machine.new 0 fuel).1.state = State.Dead) :
    RegBalanced (runCalls cs o Machine.new 0 fuel).2 := by
  intro c
  have hInv0 : CIInv cs Machine.new 0 :=
    ⟨Nat.zero_le _, rfl, fun _ => rfl, fun h => absurd h (Nat.not_succ_le_zero 0)⟩
  have h := runCalls_invariant cs o hne hnodup hnone hwf hrand fuel Machine.new 0 hInv0 c
  rw [pendingB_false cs Machine.new c (Or.inl rfl),
    pendingB_false cs _ c (Or.inr (Or.inl hdead))] at h
  exact h

/-- Concrete single-send-case selection for exercising the registration
balance theorem. -/
def csC6 : List Case := [{ id := CaseId.sendCase 0, kind := OpKind.send }]

/-- Concrete oracle: the send commits at the first `Try` visit. -/
def ocC6 : Nat → CallOracle Nat := fun _ =>
  { env := { small_random := fun _ => 0, selected := CaseId.abort, now := 0 }
    try_send := TrySendRes.ok
    is_disconnected := false
    can_send := true
    fulfill_send_ok := true
    try_recv := TryRecvRes.empty
    can_recv := false
    fulfill_recv := Option.none
    msg := 0 }

theorem c6_registration_balance_witness :
    RegBalanced (runCalls csC6 ocC6 Machine.new 0 3).2 :=
  c6_registration_balance csC6 ocC6 3 (by decide) (by decide) (by decide)
    (by intro k2 hk2; simp only [csC6, List.mem_singleton] at hk2; subst hk2; rfl)
    (by intro t2; exact Nat.zero_lt_one) (by decide)
